import Mathlib

/-!
# JpegExif: EXIF orientation extraction from JPEG files

A shallow embedding of `src/jpegexif.h` (marker scanner `getMarker`,
`getMarkerLength`, `getExifData`, the EXIF/TIFF field reader inside
`exifOrientationFromJpeg`, and the orientation mappers `rotate` and the
`switch` of `GetImage`) together with theorems about it.

Conventions of the embedding

* A byte (`uchar`) is a `Fin 256`.  `quint16` and `quint32` values are natural
  numbers; every place where the C++ code computes in 16 or 32 bit unsigned
  arithmetic applies `u16` or `u32` explicitly.
* The payload buffer `data` is a `List Byte`.  The C++ code indexes it through a
  raw pointer and never checks an index itself.  A read at an index outside
  the buffer is undefined behaviour: the run of the reader ends there with
  `Exit.fault`, and the call returns nothing.  Every index the reader touches,
  the faulting ones included, is recorded in `Run.reads`.
* Pointer arithmetic such as `ptr + pos + 8` is not truncated: only the
  `quint32` variable `pos` itself wraps.
* The local variable `o` of `exifOrientationFromJpeg` is declared without an
  initialiser.  The parameter `o0` is the indeterminate value it holds until
  it is assigned.
* A `QImage` is the library's: the mappers are modelled by the sequence of
  library calls (`mirrored`, `transformed`) they apply to the source image.
* `while (true)` and `for` loops take a fuel argument and return `none`
  (respectively `ScanResult.outOfFuel`) when it runs out; the callers pass a
  fuel that is proved sufficient.
* `exifOrientationFromJpeg` gives `none` when the call returns nothing, which
  is the case exactly when the reader read outside the buffer.
-/

namespace JpegExif

/-! ## Machine integers and constants -/

/-- One `uchar`. -/
abbrev Byte := Fin 256

/-- Truncation to `quint16`. -/
def u16 (n : Nat) : Nat := n % 65536

/-- Truncation to `quint32`. -/
def u32 (n : Nat) : Nat := n % 4294967296

/-- The bytes of `"Exif\x00\x00II\x2a\x00"`. -/
def EXIF_TIFF_LSB_MAGIC : List Byte := [0x45, 0x78, 0x69, 0x66, 0x00, 0x00, 0x49, 0x49, 0x2a, 0x00]

/-- The bytes of `"Exif\x00\x00MM\x00\x2a"`. -/
def EXIF_TIFF_MSB_MAGIC : List Byte := [0x45, 0x78, 0x69, 0x66, 0x00, 0x00, 0x4d, 0x4d, 0x00, 0x2a]

abbrev EXIF_TIFF_MAGIC_LEN : Nat := 10
abbrev TIFF_HEADER_LEN : Nat := 8
abbrev TIFF_IFD_ENTRY_LEN : Nat := 12
abbrev EXIF_IDENTIFIER_LEN : Nat := 6
abbrev EXIF_TYPE_SHORT : Nat := 3
abbrev EXIF_TAG_ORIENTATION : Nat := 0x112

abbrev JPEG_MARKER_TEM : Nat := 0x01
abbrev JPEG_MARKER_RST0 : Nat := 0xd0
abbrev JPEG_MARKER_RST1 : Nat := 0xd1
abbrev JPEG_MARKER_RST2 : Nat := 0xd2
abbrev JPEG_MARKER_RST3 : Nat := 0xd3
abbrev JPEG_MARKER_RST4 : Nat := 0xd4
abbrev JPEG_MARKER_RST5 : Nat := 0xd5
abbrev JPEG_MARKER_RST6 : Nat := 0xd6
abbrev JPEG_MARKER_RST7 : Nat := 0xd7
abbrev JPEG_MARKER_SOI : Nat := 0xd8
abbrev JPEG_MARKER_EOI : Nat := 0xd9
abbrev JPEG_MARKER_APP1 : Nat := 0xe1
abbrev JPEG_MARKER_PREFIX : Byte := 0xff

/-- The enumeration `Orientation`, kept as its underlying integer. -/
abbrev Orientation := Nat

abbrev TopLeft : Orientation := 1
abbrev TopRight : Orientation := 2
abbrev BottomRight : Orientation := 3
abbrev BottomLeft : Orientation := 4
abbrev LeftTop : Orientation := 5
abbrev RightTop : Orientation := 6
abbrev RightBottom : Orientation := 7
abbrev LeftBottom : Orientation := 8

/-! ## Raw reads from the payload buffer -/

/-- The byte `ptr[i]` for an index `i` inside the buffer.  Outside the buffer
there is no such byte: the reader ends its run with `Exit.fault` before it
would use one, so the 0 this function gives there is never looked at by it. -/
def byteAt (d : List Byte) (i : Nat) : Nat :=
  ((d[i]?).getD 0).val

/-- The call `qFromBigEndian<quint16>(ptr + p)`. -/
def qFromBigEndian16 (d : List Byte) (p : Nat) : Nat :=
  byteAt d p * 256 + byteAt d (p + 1)

/-- The call `qFromLittleEndian<quint16>(ptr + p)`. -/
def qFromLittleEndian16 (d : List Byte) (p : Nat) : Nat :=
  byteAt d p + byteAt d (p + 1) * 256

/-- The call `qFromBigEndian<quint32>(ptr + p)`. -/
def qFromBigEndian32 (d : List Byte) (p : Nat) : Nat :=
  byteAt d p * 16777216 + byteAt d (p + 1) * 65536
    + byteAt d (p + 2) * 256 + byteAt d (p + 3)

/-- The call `qFromLittleEndian<quint32>(ptr + p)`. -/
def qFromLittleEndian32 (d : List Byte) (p : Nat) : Nat :=
  byteAt d p + byteAt d (p + 1) * 256
    + byteAt d (p + 2) * 65536 + byteAt d (p + 3) * 16777216

/-- The expression `msbFirst ? qFromBigEndian<quint16>(q) : qFromLittleEndian<quint16>(q)`. -/
def rd16 (d : List Byte) (msbFirst : Bool) (p : Nat) : Nat :=
  if msbFirst then qFromBigEndian16 d p else qFromLittleEndian16 d p

/-- The expression `msbFirst ? qFromBigEndian<quint32>(q) : qFromLittleEndian<quint32>(q)`. -/
def rd32 (d : List Byte) (msbFirst : Bool) (p : Nat) : Nat :=
  if msbFirst then qFromBigEndian32 d p else qFromLittleEndian32 d p

/-! ## The field reader (lines 177 to 241 of `exifOrientationFromJpeg`) -/

/-- How a run of the reader ends.  It arrives at the label `exit` through one
of the five `goto exit` statements that log `Error 1` .. `Error 5`, through the
`goto exit` of a matching entry, or by falling out of the entry loop; or it
never arrives there, because it read outside the payload buffer (`fault`). -/
inductive Exit where
  | error1
  | error2
  | error3
  | error4
  | error5
  | found
  | notFound
  | fault
  deriving DecidableEq, Repr

/-- One run of the field reader: how it ended, the value of the local `o` at
that point, and the indices it read through `ptr`, in order (for a run that
ends in `fault`, up to and including the read that lies outside the buffer). -/
structure Run where
  exit : Exit
  o : Nat
  reads : List Nat
  deriving DecidableEq, Repr

/-- The two `memcmp` calls that set `msbFirst`; `none` when neither magic
matches.  The buffer holds at least 14 bytes when they run. -/
def detectByteOrder (d : List Byte) : Option Bool :=
  if d.take EXIF_TIFF_MAGIC_LEN = EXIF_TIFF_LSB_MAGIC then some false
  else if d.take EXIF_TIFF_MAGIC_LEN = EXIF_TIFF_MSB_MAGIC then some true
  else none

/-- Indices compared by the `memcmp` calls: the first ten bytes once for the
little-endian magic, and once more when that comparison fails. -/
def magicReads (msbFirst : Bool) : List Nat :=
  if msbFirst then List.range' 0 10 ++ List.range' 0 10 else List.range' 0 10

/-- The loop `for (quint16 f = 0; f < fieldCount; f++)`, entered with counter
`f`, position `pos` and the trace so far.  Each of the reads of tag, type,
count and value ends the run with `Exit.fault` when it lies outside the
buffer. -/
def entryLoop (d : List Byte) (msbFirst : Bool) (fieldCount o0 : Nat) :
    Nat → Nat → Nat → List Nat → Option Run
  | 0, _, _, _ => none
  | fuel + 1, f, pos, reads =>
    if f < fieldCount then
      if d.length < pos + 2 then some ⟨Exit.fault, o0, reads ++ List.range' pos 2⟩
      else if d.length < pos + 4 then some ⟨Exit.fault, o0, reads ++ List.range' pos 4⟩
      else if d.length < pos + 8 then some ⟨Exit.fault, o0, reads ++ List.range' pos 8⟩
      else
        let tag := rd16 d msbFirst pos
        let type := rd16 d msbFirst (pos + 2)
        let num := rd32 d msbFirst (pos + 4)
        let reads := reads ++ List.range' pos 8
        if tag = EXIF_TAG_ORIENTATION ∧ type = EXIF_TYPE_SHORT ∧ num = 1 then
          if d.length < pos + 10 then
            some ⟨Exit.fault, o0, reads ++ List.range' (pos + 8) 2⟩
          else
            some ⟨Exit.found, rd16 d msbFirst (pos + 8), reads ++ List.range' (pos + 8) 2⟩
        else
          entryLoop d msbFirst fieldCount o0 fuel (u16 (f + 1))
            (u32 (pos + TIFF_IFD_ENTRY_LEN)) reads
    else
      some ⟨Exit.notFound, o0, reads⟩

/-- Lines 196 to 241: everything after `msbFirst` has been set.  The IFD0
offset lies inside the buffer, which holds at least 14 bytes here; the read of
the field count at `pos` ends the run with `Exit.fault` when it lies outside
the buffer. -/
def afterMagic (d : List Byte) (o0 : Nat) (msbFirst : Bool) : Option Run :=
  let len := u32 d.length
  let ifdOff := rd32 d msbFirst EXIF_TIFF_MAGIC_LEN
  let reads := magicReads msbFirst ++ List.range' EXIF_TIFF_MAGIC_LEN 4
  if ifdOff < TIFF_HEADER_LEN then some ⟨Exit.error3, o0, reads⟩
  else
    let pos := u32 (EXIF_IDENTIFIER_LEN + ifdOff)
    if len < u32 (pos + 2) then some ⟨Exit.error4, o0, reads⟩
    else
      let reads := reads ++ List.range' pos 2
      if d.length < pos + 2 then some ⟨Exit.fault, o0, reads⟩
      else
        let fieldCount := rd16 d msbFirst pos
        let pos := u32 (pos + 2)
        if len < u32 (pos + u32 (TIFF_IFD_ENTRY_LEN * fieldCount)) then
          some ⟨Exit.error5, o0, reads⟩
        else
          entryLoop d msbFirst fieldCount o0 (fieldCount + 1) 0 pos reads

/-- Lines 177 to 241: the field reader on the payload `d`.  The reads of the
two `memcmp` calls lie inside the buffer, which holds at least 14 bytes when
they run. -/
def fieldReader (d : List Byte) (o0 : Nat) : Option Run :=
  let len := u32 d.length
  if len < EXIF_IDENTIFIER_LEN + TIFF_HEADER_LEN then some ⟨Exit.error1, o0, []⟩
  else
    match detectByteOrder d with
    | none => some ⟨Exit.error2, o0, magicReads true⟩
    | some msbFirst => afterMagic d o0 msbFirst

/-- Lines 248 to 254: the value returned (and cached) for a given `o`. -/
def normalize (o : Nat) : Orientation :=
  if o < TopLeft ∨ o > LeftBottom then TopLeft else o

/-- The value of `o` with which a run arrives at `exit`; `none` for a run that
ends in `fault` and never arrives there. -/
def Run.atExit (r : Run) : Option Nat :=
  if r.exit = Exit.fault then none else some r.o

/-- Lines 177 to 254 on a payload: the field reader followed by the range check
at `exit`; `none` when the reader does not arrive at `exit`. -/
def orientationFromPayload (d : List Byte) (o0 : Nat) : Option Orientation :=
  ((fieldReader d o0).bind Run.atExit).map normalize

/-! ## The stream (`QFile`) and the marker scanner -/

/-- An open `QFile`: the bytes of the file and the current position. -/
structure QFile where
  bytes : List Byte
  pos : Nat
  deriving DecidableEq, Repr

/-- The bytes from the current position on. -/
def QFile.rest (f : QFile) : List Byte := f.bytes.drop f.pos

/-- The call `f.seek(target)`.  A seek to a position inside the file or at its end moves
there.  What a seek past the end does is the device's business: with
`seekPastEnd` the position moves there as well, without it the seek fails and
the position stays. -/
def QFile.seek (seekPastEnd : Bool) (f : QFile) (target : Nat) : QFile :=
  if target ≤ f.bytes.length ∨ seekPastEnd = true then { f with pos := target } else f

/-- The loop `while (c == 0xff) if (f.getChar(&c) == false) return 0;` of
`getMarker` followed by its last two statements, entered with `c == 0xff`.
The first argument is the unread part of the file, the second the position;
the result is the value returned and the position afterwards. -/
def fillLoop : List Byte → Nat → Nat × Nat
  | [], pos => (0, pos)
  | c :: rest, pos =>
    if c = JPEG_MARKER_PREFIX then fillLoop rest (pos + 1)
    else if c.val = 0 then (0, pos + 1)
    else (c.val, pos + 1)

/-- The function `getMarker(f)`: the marker byte, or 0, and the file afterwards. -/
def getMarker (f : QFile) : Nat × QFile :=
  match f.rest with
  | [] => (0, f)
  | c :: rest =>
    if c ≠ JPEG_MARKER_PREFIX then (0, { f with pos := f.pos + 1 })
    else
      let r := fillLoop rest (f.pos + 1)
      (r.1, { f with pos := r.2 })

/-- The function `getMarkerLength(f)`: the big-endian 16-bit length, or 0 after a short
read, and the file afterwards. -/
def getMarkerLength (f : QFile) : Nat × QFile :=
  match f.rest with
  | b0 :: b1 :: _ => (b0.val * 256 + b1.val, { f with pos := f.pos + 2 })
  | [_] => (0, { f with pos := f.pos + 1 })
  | [] => (0, f)

/-- What `getExifData` hands back: `failed` for `return false`, `payload data`
for `return true` with the bytes left in `data`.  `outOfFuel` is the model's
own outcome for a marker loop that has not returned within its fuel. -/
inductive ScanResult where
  | outOfFuel
  | failed
  | payload (data : List Byte)
  deriving DecidableEq, Repr

/-- The `while (true)` loop of `getExifData`. -/
def markerLoop (seekPastEnd : Bool) : Nat → QFile → ScanResult
  | 0, _ => ScanResult.outOfFuel
  | fuel + 1, f =>
    let m := getMarker f
    let marker := m.1
    let f := m.2
    if marker = 0 then ScanResult.failed
    else if marker = JPEG_MARKER_SOI ∨ marker = JPEG_MARKER_EOI then ScanResult.failed
    else if marker = JPEG_MARKER_TEM ∨ marker = JPEG_MARKER_RST0 ∨ marker = JPEG_MARKER_RST1
        ∨ marker = JPEG_MARKER_RST2 ∨ marker = JPEG_MARKER_RST3 ∨ marker = JPEG_MARKER_RST4
        ∨ marker = JPEG_MARKER_RST5 ∨ marker = JPEG_MARKER_RST6
        ∨ marker = JPEG_MARKER_RST7 then
      markerLoop seekPastEnd fuel f
    else if marker = JPEG_MARKER_APP1 then
      let l := getMarkerLength f
      let len := l.1
      let f := l.2
      if len < 2 then ScanResult.failed
      else
        let data := f.rest.take (len - 2)
        if data.length ≠ len - 2 then ScanResult.failed
        else ScanResult.payload data
    else
      let l := getMarkerLength f
      let len := l.1
      let f := l.2
      if len < 2 then ScanResult.failed
      else
        let skip := f.pos + len - 2
        let f := f.seek seekPastEnd skip
        if f.pos ≠ skip then ScanResult.failed
        else markerLoop seekPastEnd fuel f

/-- The function `getExifData(f, data)` on a file with the given bytes.  Every turn of the
marker loop that does not return consumes at least two bytes, so a fuel of one
more than the file size is never used up. -/
def getExifData (seekPastEnd : Bool) (bytes : List Byte) : ScanResult :=
  let m := getMarker ⟨bytes, 0⟩
  if m.1 ≠ JPEG_MARKER_SOI then ScanResult.failed
  else markerLoop seekPastEnd (bytes.length + 1) m.2

/-! ## `exifOrientationFromJpeg` -/

/-- What the function depends on besides its argument and the cache: the
device's behaviour on a seek past the end, the indeterminate initial value of
the local `o`, and the file system (`fs name` is the content of the file
`name`, `none` when it cannot be opened for reading). -/
structure Env where
  seekPastEnd : Bool
  o0 : Nat
  fs : String → Option (List Byte)

/-- The static `OrientationCacheMap`. -/
abbrev OrientationCache := String → Option Orientation

/-- The call `OrientationCacheMap.insert(fname, v)`. -/
def OrientationCache.insert (c : OrientationCache) (fname : String) (v : Orientation) :
    OrientationCache :=
  fun k => if k = fname then some v else c k

/-- The value of `o` on arrival at `exit` (lines 160 to 241); `none` when the
call does not arrive there, because the reader read outside the payload buffer
(or, in the model only, because a loop ran out of fuel, which is proved not to
happen).  When opening or scanning fails, the
`qDebug` statement calls `f.open` and `getExifData` once more for its message;
those calls touch only `f` and `data`, which nothing reads afterwards. -/
def valueAtExit (env : Env) (fname : String) : Option Nat :=
  match env.fs (fname.replace "file://" "") with
  | none => some env.o0
  | some bytes =>
    match getExifData env.seekPastEnd bytes with
    | ScanResult.outOfFuel => none
    | ScanResult.failed => some env.o0
    | ScanResult.payload data => (fieldReader data env.o0).bind Run.atExit

/-- The function `exifOrientationFromJpeg(fname)`: the value returned and the
cache afterwards; `none` when the call returns nothing. -/
def exifOrientationFromJpeg (env : Env) (cache : OrientationCache) (fname : String) :
    Option (Orientation × OrientationCache) :=
  match cache fname with
  | some v => some (v, cache)
  | none =>
    (valueAtExit env fname).map (fun o => (normalize o, cache.insert fname (normalize o)))

/-! ## Test data: a minimal EXIF/TIFF block -/

/-- A 16-bit value laid out in the given byte order. -/
def enc16 (msbFirst : Bool) (v : Nat) : List Byte :=
  if msbFirst then [Fin.ofNat (v / 256), Fin.ofNat v]
  else [Fin.ofNat v, Fin.ofNat (v / 256)]

/-- A 32-bit value laid out in the given byte order. -/
def enc32 (msbFirst : Bool) (v : Nat) : List Byte :=
  if msbFirst then
    [Fin.ofNat (v / 16777216), Fin.ofNat (v / 65536), Fin.ofNat (v / 256), Fin.ofNat v]
  else
    [Fin.ofNat v, Fin.ofNat (v / 256), Fin.ofNat (v / 65536), Fin.ofNat (v / 16777216)]

/-- The Exif identifier followed by the first four bytes of the TIFF header for
the given byte order. -/
def tiffMagic (msbFirst : Bool) : List Byte :=
  if msbFirst then EXIF_TIFF_MSB_MAGIC else EXIF_TIFF_LSB_MAGIC

/-- The minimal block: Exif identifier, TIFF header with IFD0 offset 8, a field
count of 1 and the single entry `tag = 0x0112, type = 3, count = 1, value = V`
(the value in the first two of the entry's last four bytes). -/
def minimalBlock (msbFirst : Bool) (V : Nat) : List Byte :=
  tiffMagic msbFirst ++ enc32 msbFirst 8 ++ enc16 msbFirst 1
    ++ enc16 msbFirst 0x112 ++ enc16 msbFirst 3 ++ enc32 msbFirst 1
    ++ enc16 msbFirst V ++ [0, 0]

/-- The cache holds only values of the enumeration. -/
def CacheInRange (c : OrientationCache) : Prop :=
  ∀ k v, c k = some v → 1 ≤ v ∧ v ≤ 8

/-- An empty `OrientationCacheMap`. -/
def emptyCache : OrientationCache := fun _ => none

/-- A world in which every name opens a file with the given bytes and the local
`o` starts out holding `o0`. -/
def envOf (bytes : List Byte) (o0 : Nat) : Env :=
  { seekPastEnd := true, o0 := o0, fs := fun _ => some bytes }

/-! ## Vocabulary for statements about the field reader -/

/-- The IFD0 offset the reader decodes at payload offset 10. -/
def ifdOffset (d : List Byte) (msbFirst : Bool) : Nat :=
  rd32 d msbFirst EXIF_TIFF_MAGIC_LEN

/-- The value of `pos` after `pos = EXIF_IDENTIFIER_LEN + ifdOff`. -/
def ifdPos (d : List Byte) (msbFirst : Bool) : Nat :=
  u32 (EXIF_IDENTIFIER_LEN + ifdOffset d msbFirst)

/-- The value of `fieldCount`. -/
def fieldCountAt (d : List Byte) (msbFirst : Bool) : Nat :=
  rd16 d msbFirst (ifdPos d msbFirst)

/-- The value of `pos` on entry to the loop, after `pos += 2`. -/
def firstEntryPos (d : List Byte) (msbFirst : Bool) : Nat :=
  u32 (ifdPos d msbFirst + 2)

/-- The payload offset of entry number `k` of the directory. -/
def entryPos (d : List Byte) (msbFirst : Bool) (k : Nat) : Nat :=
  firstEntryPos d msbFirst + TIFF_IFD_ENTRY_LEN * k

/-- The test of the entry loop on the entry at payload offset `q`:
`tag == EXIF_TAG_ORIENTATION && type == EXIF_TYPE_SHORT && num == 1`. -/
def EntryMatches (d : List Byte) (msbFirst : Bool) (q : Nat) : Prop :=
  rd16 d msbFirst q = EXIF_TAG_ORIENTATION
    ∧ rd16 d msbFirst (q + 2) = EXIF_TYPE_SHORT
    ∧ rd32 d msbFirst (q + 4) = 1

instance (d : List Byte) (msbFirst : Bool) (q : Nat) :
    Decidable (EntryMatches d msbFirst q) :=
  inferInstanceAs (Decidable (_ ∧ _ ∧ _))

/-- The payload takes the reader to the entry loop: it passes every check the
reader makes before the loop, as the reader computes them (length, magic, IFD0
offset, room for the field count, room for the entries), and the field count
it reads on the way lies inside the buffer. -/
def PassesChecks (d : List Byte) (msbFirst : Bool) : Prop :=
  ¬ (u32 d.length < EXIF_IDENTIFIER_LEN + TIFF_HEADER_LEN)
    ∧ detectByteOrder d = some msbFirst
    ∧ ¬ (ifdOffset d msbFirst < TIFF_HEADER_LEN)
    ∧ ¬ (u32 d.length < u32 (ifdPos d msbFirst + 2))
    ∧ ¬ (d.length < ifdPos d msbFirst + 2)
    ∧ ¬ (u32 d.length < u32 (firstEntryPos d msbFirst
          + u32 (TIFF_IFD_ENTRY_LEN * fieldCountAt d msbFirst)))

instance (d : List Byte) (msbFirst : Bool) :
    Decidable (PassesChecks d msbFirst) :=
  inferInstanceAs (Decidable (_ ∧ _ ∧ _ ∧ _ ∧ _ ∧ _))

/-- Indices read before the entry loop by a run that gets that far. -/
def headerReads (d : List Byte) (msbFirst : Bool) : List Nat :=
  magicReads msbFirst ++ List.range' EXIF_TIFF_MAGIC_LEN 4
    ++ List.range' (ifdPos d msbFirst) 2

/-- Indices read by the loop while it passes `k` entries that do not match,
starting at `pos`: tag, type and count of each. -/
def scanReads (pos : Nat) : Nat → List Nat
  | 0 => []
  | k + 1 => List.range' pos 8 ++ scanReads (pos + TIFF_IFD_ENTRY_LEN) k

/-- A little-endian payload with two entries: the first has the Orientation
tag but type 4 (LONG), the second is a proper Orientation entry of value 3. -/
def twoEntryBlock : List Byte :=
  EXIF_TIFF_LSB_MAGIC ++ [8, 0, 0, 0, 2, 0,
    0x12, 0x01, 4, 0, 1, 0, 0, 0, 6, 0, 0, 0,
    0x12, 0x01, 3, 0, 1, 0, 0, 0, 3, 0, 0, 0]

/-- A little-endian payload whose field count says 2 although only one entry, a
proper Orientation entry of value 6, fits in its 28 bytes. -/
def overclaimingBlock : List Byte :=
  EXIF_TIFF_LSB_MAGIC ++ [8, 0, 0, 0, 2, 0,
    0x12, 0x01, 3, 0, 1, 0, 0, 0, 6, 0, 0, 0]

/-- A 14-byte little-endian payload whose IFD0 offset is 0xFFFFFFF8. -/
def wrapBlock : List Byte :=
  EXIF_TIFF_LSB_MAGIC ++ [0xf8, 0xff, 0xff, 0xff]

/-- A 14-byte little-endian payload whose IFD0 offset is 0xFFFFFFFE. -/
def wrapBlockInside : List Byte :=
  EXIF_TIFF_LSB_MAGIC ++ [0xfe, 0xff, 0xff, 0xff]

/-- The payload makes the reader read outside the buffer: it has at least 14
bytes and a valid magic, and its IFD0 offset is 0xFFFFFFF8 or 0xFFFFFFF9, so
that `pos + 2` wraps in 32-bit arithmetic and the field count is read at index
4294967294 or 4294967295. -/
def WrapsPastBuffer (d : List Byte) : Prop :=
  14 ≤ d.length ∧ ∃ msbFirst, detectByteOrder d = some msbFirst
    ∧ 4294967288 ≤ ifdOffset d msbFirst ∧ ifdOffset d msbFirst ≤ 4294967289

/-- The call for `fname` gets as far as the reader, on an APP1 payload that
makes it read outside the buffer. -/
def ReaderFaults (env : Env) (fname : String) : Prop :=
  ∃ bytes data, env.fs (fname.replace "file://" "") = some bytes
    ∧ getExifData env.seekPastEnd bytes = ScanResult.payload data
    ∧ WrapsPastBuffer data

/-! ## Vocabulary for statements about the marker scanner -/

/-- The bytes of a marker: one 0xff, `fill` further fill bytes, then the marker
byte `c`. -/
def markerBytes (fill : Nat) (c : Byte) : List Byte :=
  List.replicate (fill + 1) JPEG_MARKER_PREFIX ++ [c]

/-- A 16-bit length, big-endian. -/
def be16 (n : Nat) : List Byte := [Fin.ofNat (n / 256), Fin.ofNat n]

/-- The marker byte is one of the standalone markers the scanner skips: TEM or
RST0 .. RST7. -/
def IsStandalone (c : Byte) : Prop :=
  c.val = JPEG_MARKER_TEM ∨ (JPEG_MARKER_RST0 ≤ c.val ∧ c.val ≤ JPEG_MARKER_RST7)

/-- The marker byte starts a length-prefixed segment other than APP1: it is a
marker byte (neither 0 nor 0xff), not standalone, not SOI, not EOI and not
APP1. -/
def IsOtherSegment (c : Byte) : Prop :=
  c.val ≠ 0 ∧ c ≠ JPEG_MARKER_PREFIX ∧ ¬ IsStandalone c ∧ c.val ≠ JPEG_MARKER_SOI
    ∧ c.val ≠ JPEG_MARKER_EOI ∧ c.val ≠ JPEG_MARKER_APP1

/-- What may stand between SOI and the APP1 segment: a standalone marker, or a
complete length-prefixed segment with marker byte `c` and the given body. -/
inductive Item where
  | standalone (fill : Nat) (c : Byte)
  | segment (fill : Nat) (c : Byte) (body : List Byte)

/-- The marker byte is of the right kind and the body fits a 16-bit length. -/
def Item.WellFormed : Item → Prop
  | Item.standalone _ c => IsStandalone c
  | Item.segment _ c body => IsOtherSegment c ∧ body.length ≤ 65533

/-- The bytes of an item. -/
def Item.encode : Item → List Byte
  | Item.standalone fill c => markerBytes fill c
  | Item.segment fill c body => markerBytes fill c ++ be16 (body.length + 2) ++ body

/-- The bytes of a sequence of items. -/
def encodeItems : List Item → List Byte
  | [] => []
  | it :: rest => it.encode ++ encodeItems rest

/-- A stream of the form SOI, items, APP1 segment with the given payload,
trailing bytes. -/
def jpegStream (fill0 : Nat) (items : List Item) (fillA : Nat) (payload trailing : List Byte) :
    List Byte :=
  markerBytes fill0 0xd8 ++ (encodeItems items
    ++ (markerBytes fillA 0xe1 ++ (be16 (payload.length + 2) ++ (payload ++ trailing))))

instance (c : Byte) : Decidable (IsStandalone c) :=
  inferInstanceAs (Decidable (_ ∨ _))

instance (c : Byte) : Decidable (IsOtherSegment c) :=
  inferInstanceAs (Decidable (_ ∧ _ ∧ _ ∧ _ ∧ _ ∧ _))

instance Item.decWellFormed : (it : Item) → Decidable it.WellFormed
  | Item.standalone _ c => inferInstanceAs (Decidable (IsStandalone c))
  | Item.segment _ c body => inferInstanceAs (Decidable (IsOtherSegment c ∧ body.length ≤ 65533))

/-- The example stream: SOI, RST0, an APP0 segment with a two-byte body, APP1
with the little-endian minimal block of value 6, three trailing bytes. -/
def exampleJpeg : List Byte :=
  jpegStream 0 [Item.standalone 0 0xd0, Item.segment 0 0xe0 [9, 9]] 0 (minimalBlock false 6)
    [1, 2, 3]

/-- A stream whose first two bytes are 0xff 0xff: SOI preceded by one fill
byte, then an APP1 segment of length 2. -/
def fillSoiJpeg : List Byte := [0xff, 0xff, 0xd8, 0xff, 0xe1, 0x00, 0x02]

/-- A file consisting of SOI and one APP1 segment with the given payload. -/
def app1File (payload : List Byte) : List Byte :=
  jpegStream 0 [] 0 payload []

/-- What `exifOrientationFromJpeg` returns, from an empty cache, for a file with
the given bytes when the local `o` starts out holding `o0`. -/
def returnedFor (bytes : List Byte) (o0 : Nat) : Option Orientation :=
  (exifOrientationFromJpeg (envOf bytes o0) emptyCache "a.jpg").map Prod.fst

/-- A stream that begins with SOI and a sequence of items, followed by `tail`:
after the items the scanner stands at the first byte of `tail`. -/
def scanStream (fill0 : Nat) (items : List Item) (tail : List Byte) : List Byte :=
  markerBytes fill0 0xd8 ++ (encodeItems items ++ tail)

/-- The marker byte is followed by a two-byte length: it is APP1 or starts some
other length-prefixed segment. -/
def IsLengthPrefixed (c : Byte) : Prop :=
  c.val = JPEG_MARKER_APP1 ∨ IsOtherSegment c

instance (c : Byte) : Decidable (IsLengthPrefixed c) :=
  inferInstanceAs (Decidable (_ ∨ _))

/-- The bytes of a well-formed APP1 segment with the given payload. -/
def app1Segment (payload : List Byte) : List Byte :=
  markerBytes 0 0xe1 ++ (be16 (payload.length + 2) ++ payload)

/-- One turn of the `while (true)` loop of `getExifData` on its own: `Sum.inl r`
when the turn returns `r`, `Sum.inr f2` when the loop goes round again with the
file at `f2`. -/
def markerStep (seekPastEnd : Bool) (f : QFile) : ScanResult ⊕ QFile :=
  let m := getMarker f
  let marker := m.1
  let f := m.2
  if marker = 0 then Sum.inl ScanResult.failed
  else if marker = JPEG_MARKER_SOI ∨ marker = JPEG_MARKER_EOI then Sum.inl ScanResult.failed
  else if marker = JPEG_MARKER_TEM ∨ marker = JPEG_MARKER_RST0 ∨ marker = JPEG_MARKER_RST1
      ∨ marker = JPEG_MARKER_RST2 ∨ marker = JPEG_MARKER_RST3 ∨ marker = JPEG_MARKER_RST4
      ∨ marker = JPEG_MARKER_RST5 ∨ marker = JPEG_MARKER_RST6
      ∨ marker = JPEG_MARKER_RST7 then
    Sum.inr f
  else if marker = JPEG_MARKER_APP1 then
    let l := getMarkerLength f
    let len := l.1
    let f := l.2
    if len < 2 then Sum.inl ScanResult.failed
    else
      let data := f.rest.take (len - 2)
      if data.length ≠ len - 2 then Sum.inl ScanResult.failed
      else Sum.inl (ScanResult.payload data)
  else
    let l := getMarkerLength f
    let len := l.1
    let f := l.2
    if len < 2 then Sum.inl ScanResult.failed
    else
      let skip := f.pos + len - 2
      let f := f.seek seekPastEnd skip
      if f.pos ≠ skip then Sum.inl ScanResult.failed
      else Sum.inr f

/-! ## The orientation mappers `rotate` and `GetImage` -/

/-- The enumeration `Qt::TransformationMode`. -/
inductive TransformationMode where
  | FastTransformation
  | SmoothTransformation
  deriving DecidableEq, Repr

/-- One call on a `QImage`: `mirrored(horizontal, vertical)`, or
`transformed(QTransform().rotate(angle), mode)` with the angle in degrees. -/
inductive ImageOp where
  | mirrored (horizontal vertical : Bool)
  | transformed (angle : Int) (mode : TransformationMode)
  deriving DecidableEq, Repr

/-- The function `rotate(src, orientation)`: the calls it applies to `src`, in
order, to obtain `dst`; the empty list is `dst = src`.  `transformed(trans)` has
the default mode `Qt::FastTransformation`.  The argument is the integer value
of the enumeration. -/
def rotate (orientation : Int) : List ImageOp :=
  if orientation = TopRight then [ImageOp.mirrored true false]
  else if orientation = BottomRight then [ImageOp.mirrored true true]
  else if orientation = BottomLeft then [ImageOp.mirrored false true]
  else if orientation = LeftTop then
    [ImageOp.transformed 90 TransformationMode.FastTransformation, ImageOp.mirrored true false]
  else if orientation = RightTop then
    [ImageOp.transformed 90 TransformationMode.FastTransformation]
  else if orientation = RightBottom then
    [ImageOp.transformed (-90) TransformationMode.FastTransformation,
      ImageOp.mirrored true false]
  else if orientation = LeftBottom then
    [ImageOp.transformed (-90) TransformationMode.FastTransformation]
  else []

/-- The `switch` inside `GetImage` (lines 305 to 322): the calls applied to
`srcImage`, in order, for the given value of `exifOrientationFromJpeg`. -/
def getImageSwitch (orientation : Int) : List ImageOp :=
  if orientation = TopRight then [ImageOp.mirrored true false]
  else if orientation = BottomRight then [ImageOp.mirrored true true]
  else if orientation = BottomLeft then [ImageOp.mirrored false true]
  else if orientation = LeftTop then
    [ImageOp.transformed 90 TransformationMode.SmoothTransformation,
      ImageOp.mirrored true false]
  else if orientation = RightTop then
    [ImageOp.transformed 90 TransformationMode.SmoothTransformation]
  else if orientation = RightBottom then
    [ImageOp.transformed (-90) TransformationMode.SmoothTransformation,
      ImageOp.mirrored true false]
  else if orientation = LeftBottom then
    [ImageOp.transformed (-90) TransformationMode.SmoothTransformation]
  else []

/-- A geometric operation: a rotation by an angle in degrees, as passed to
`QTransform::rotate`, or a mirroring with its two flags. -/
inductive GeoOp where
  | rotation (angle : Int)
  | mirror (horizontal vertical : Bool)
  deriving DecidableEq, Repr

/-- The geometric operation of a call, without the interpolation mode. -/
def ImageOp.geometry : ImageOp → GeoOp
  | ImageOp.mirrored h v => GeoOp.mirror h v
  | ImageOp.transformed angle _ => GeoOp.rotation angle

/-- The geometric operations of a sequence of calls, in order. -/
def geometryOf (ops : List ImageOp) : List GeoOp := ops.map ImageOp.geometry

/-- The angle of the rotation in a sequence of geometric operations, if there
is one. -/
def rotationAngle : List GeoOp → Option Int
  | [] => none
  | GeoOp.rotation angle :: _ => some angle
  | GeoOp.mirror _ _ :: rest => rotationAngle rest

/-- The table as the specification words it, for a given reading of
"clockwise": `cw` is the angle passed to `QTransform::rotate` for a clockwise
quarter turn, and the counter-clockwise one is `-cw`.  1 is identity, 2
mirror-horizontal, 3 mirror-horizontal+vertical, 4 mirror-vertical, 5
rotate-90-clockwise then mirror-horizontal, 6 rotate-90-counter-clockwise, 7
rotate-90-counter-clockwise then mirror-horizontal, 8 rotate-90-clockwise. -/
def specTransform (cw : Int) (orientation : Int) : List GeoOp :=
  if orientation = 2 then [GeoOp.mirror true false]
  else if orientation = 3 then [GeoOp.mirror true true]
  else if orientation = 4 then [GeoOp.mirror false true]
  else if orientation = 5 then [GeoOp.rotation cw, GeoOp.mirror true false]
  else if orientation = 6 then [GeoOp.rotation (-cw)]
  else if orientation = 7 then [GeoOp.rotation (-cw), GeoOp.mirror true false]
  else if orientation = 8 then [GeoOp.rotation cw]
  else []


/-! ## Basic facts about the reads -/

theorem byteAt_lt (d : List Byte) (i : Nat) : byteAt d i < 256 :=
  ((d[i]?).getD 0).isLt

theorem rd16_lt (d : List Byte) (msb : Bool) (p : Nat) :
    rd16 d msb p < 65536 := by
  have h0 := byteAt_lt d p
  have h1 := byteAt_lt d (p + 1)
  unfold rd16 qFromBigEndian16 qFromLittleEndian16
  split <;> omega

theorem rd32_lt (d : List Byte) (msb : Bool) (p : Nat) :
    rd32 d msb p < 4294967296 := by
  have h0 := byteAt_lt d p
  have h1 := byteAt_lt d (p + 1)
  have h2 := byteAt_lt d (p + 2)
  have h3 := byteAt_lt d (p + 3)
  unfold rd32 qFromBigEndian32 qFromLittleEndian32
  split <;> omega

theorem u16_of_lt {n : Nat} (h : n < 65536) : u16 n = n := Nat.mod_eq_of_lt h

theorem u32_of_lt {n : Nat} (h : n < 4294967296) : u32 n = n := Nat.mod_eq_of_lt h

theorem u32_le (n : Nat) : u32 n ≤ n := Nat.mod_le n 4294967296

/-! ## The entry loop -/

/-- One turn of the entry loop, with every read that may lie outside the
buffer. -/
theorem entryLoop_unfold (d : List Byte) (msb : Bool) (N o0 : Nat)
    (fuel f pos : Nat) (reads : List Nat) :
    entryLoop d msb N o0 (fuel + 1) f pos reads =
      if f < N then
        if d.length < pos + 2 then some ⟨Exit.fault, o0, reads ++ List.range' pos 2⟩
        else if d.length < pos + 4 then some ⟨Exit.fault, o0, reads ++ List.range' pos 4⟩
        else if d.length < pos + 8 then some ⟨Exit.fault, o0, reads ++ List.range' pos 8⟩
        else if EntryMatches d msb pos then
          if d.length < pos + 10 then
            some ⟨Exit.fault, o0, reads ++ List.range' pos 8 ++ List.range' (pos + 8) 2⟩
          else
            some ⟨Exit.found, rd16 d msb (pos + 8),
              reads ++ List.range' pos 8 ++ List.range' (pos + 8) 2⟩
        else entryLoop d msb N o0 fuel (u16 (f + 1)) (u32 (pos + 12))
          (reads ++ List.range' pos 8)
      else some ⟨Exit.notFound, o0, reads⟩ := rfl

/-- One turn of the entry loop on an entry that lies inside the buffer. -/
theorem entryLoop_succ (d : List Byte) (msb : Bool) (N o0 : Nat)
    (fuel f pos : Nat) (reads : List Nat) (hb : f < N → pos + 10 ≤ d.length) :
    entryLoop d msb N o0 (fuel + 1) f pos reads =
      if f < N then
        if EntryMatches d msb pos then
          some ⟨Exit.found, rd16 d msb (pos + 8),
            reads ++ List.range' pos 8 ++ List.range' (pos + 8) 2⟩
        else entryLoop d msb N o0 fuel (u16 (f + 1)) (u32 (pos + 12))
          (reads ++ List.range' pos 8)
      else some ⟨Exit.notFound, o0, reads⟩ := by
  rw [entryLoop_unfold]
  by_cases hlt : f < N
  · have := hb hlt
    have h2 : ¬ d.length < pos + 2 := by omega
    have h4 : ¬ d.length < pos + 4 := by omega
    have h8 : ¬ d.length < pos + 8 := by omega
    have h10 : ¬ d.length < pos + 10 := by omega
    simp only [hlt, if_true, h2, h4, h8, h10, if_false]
  · simp only [hlt, if_false]

theorem entryLoop_total (d : List Byte) (msb : Bool) (N o0 : Nat)
    (hN : N < 65536) :
    ∀ (fuel f pos : Nat) (reads : List Nat), f ≤ N → N - f < fuel →
      ∃ r, entryLoop d msb N o0 fuel f pos reads = some r := by
  intro fuel
  induction fuel with
  | zero => intro f pos reads _ h; omega
  | succ n ih =>
    intro f pos reads hf hfuel
    rw [entryLoop_unfold]
    by_cases hlt : f < N
    · simp only [hlt, if_true]
      split
      · exact ⟨_, rfl⟩
      · split
        · exact ⟨_, rfl⟩
        · split
          · exact ⟨_, rfl⟩
          · split
            · split <;> exact ⟨_, rfl⟩
            · have hu : u16 (f + 1) = f + 1 := by unfold u16; omega
              rw [hu]
              exact ih (f + 1) _ _ (by omega) (by omega)
    · simp only [hlt, if_false]
      exact ⟨_, rfl⟩

/-- The loop stops at the first matching entry. -/
theorem entryLoop_found (d : List Byte) (msb : Bool) (N o0 : Nat)
    (hN : N < 65536) :
    ∀ (j fuel f pos : Nat) (reads : List Nat), f + j < N → pos + 12 * j + 12 ≤ 4294967296 →
      pos + 12 * j + 10 ≤ d.length →
      j < fuel → (∀ i, i < j → ¬ EntryMatches d msb (pos + 12 * i)) →
      EntryMatches d msb (pos + 12 * j) →
      entryLoop d msb N o0 fuel f pos reads =
        some ⟨Exit.found, rd16 d msb (pos + 12 * j + 8),
          reads ++ scanReads pos j ++ List.range' (pos + 12 * j) 8
            ++ List.range' (pos + 12 * j + 8) 2⟩ := by
  intro j
  induction j with
  | zero =>
    intro fuel f pos reads hf _ hb hfuel _ hm
    obtain ⟨n, rfl⟩ : ∃ n, fuel = n + 1 := ⟨fuel - 1, by omega⟩
    rw [entryLoop_succ _ _ _ _ _ _ _ _ (fun _ => by omega)]
    simp only [Nat.mul_zero, Nat.add_zero] at hm ⊢
    have hlt : f < N := by omega
    simp [hlt, hm, scanReads]
  | succ j ih =>
    intro fuel f pos reads hf hw hb hfuel hno hm
    obtain ⟨n, rfl⟩ : ∃ n, fuel = n + 1 := ⟨fuel - 1, by omega⟩
    rw [entryLoop_succ _ _ _ _ _ _ _ _ (fun _ => by omega)]
    have hlt : f < N := by omega
    have h0 : ¬ EntryMatches d msb pos := by
      have := hno 0 (by omega)
      simpa using this
    have hu : u16 (f + 1) = f + 1 := u16_of_lt (by omega)
    have hp : u32 (pos + 12) = pos + 12 := u32_of_lt (by omega)
    simp only [hlt, h0, if_true, if_false, hu, hp]
    have e1 : pos + 12 * (j + 1) = pos + 12 + 12 * j := by ring
    rw [ih n (f + 1) (pos + 12) _ (by omega) (by omega) (by omega) (by omega)
      (fun i hi => by
        have := hno (i + 1) (by omega)
        have e : pos + 12 * (i + 1) = pos + 12 + 12 * i := by ring
        rwa [e] at this)
      (by rwa [e1] at hm)]
    simp [scanReads, e1, List.append_assoc]

/-- Without a matching entry the loop passes all entries and leaves `o` alone. -/
theorem entryLoop_notFound (d : List Byte) (msb : Bool) (N o0 : Nat)
    (hN : N < 65536) :
    ∀ (n fuel f pos : Nat) (reads : List Nat), f + n = N → pos + 12 * n < 4294967296 →
      pos + 12 * n ≤ d.length →
      n < fuel → (∀ i, i < n → ¬ EntryMatches d msb (pos + 12 * i)) →
      entryLoop d msb N o0 fuel f pos reads =
        some ⟨Exit.notFound, o0, reads ++ scanReads pos n⟩ := by
  intro n
  induction n with
  | zero =>
    intro fuel f pos reads hf _ _ hfuel _
    obtain ⟨k, rfl⟩ : ∃ k, fuel = k + 1 := ⟨fuel - 1, by omega⟩
    rw [entryLoop_succ _ _ _ _ _ _ _ _ (fun h => by omega)]
    have hlt : ¬ f < N := by omega
    simp [hlt, scanReads]
  | succ n ih =>
    intro fuel f pos reads hf hw hb hfuel hno
    obtain ⟨k, rfl⟩ : ∃ k, fuel = k + 1 := ⟨fuel - 1, by omega⟩
    rw [entryLoop_succ _ _ _ _ _ _ _ _ (fun _ => by omega)]
    have hlt : f < N := by omega
    have h0 : ¬ EntryMatches d msb pos := by
      have := hno 0 (by omega)
      simpa using this
    have hu : u16 (f + 1) = f + 1 := u16_of_lt (by omega)
    have hp : u32 (pos + 12) = pos + 12 := u32_of_lt (by omega)
    simp only [hlt, h0, if_true, if_false, hu, hp]
    rw [ih k (f + 1) (pos + 12) _ (by omega) (by omega) (by omega) (by omega)
      (fun i hi => by
        have := hno (i + 1) (by omega)
        have e : pos + 12 * (i + 1) = pos + 12 + 12 * i := by ring
        rwa [e] at this)]
    simp [scanReads, List.append_assoc]

theorem mem_scanReads (i : Nat) : ∀ (k pos : Nat), i ∈ scanReads pos k →
    pos ≤ i ∧ i + 4 < pos + 12 * k := by
  intro k
  induction k with
  | zero => intro pos h; simp [scanReads] at h
  | succ k ih =>
    intro pos h
    simp only [scanReads, List.mem_append, List.mem_range'_1] at h
    rcases h with h | h
    · omega
    · have := ih (pos + 12) h
      omega

/-- When the entries that are left lie inside the buffer, the loop arrives at
`exit`, at a matching entry or at the end of the directory, and every index
it reads lies in those entries. -/
theorem entryLoop_reads (d : List Byte) (msb : Bool) (N o0 : Nat)
    (hN : N < 65536) :
    ∀ (fuel f pos : Nat) (reads : List Nat) (run : Run), f ≤ N →
      pos + 12 * (N - f) < 4294967296 → pos + 12 * (N - f) ≤ d.length →
      entryLoop d msb N o0 fuel f pos reads = some run →
      ((run.exit = Exit.found ∧ ∃ q, run.o = rd16 d msb q)
          ∨ (run.exit = Exit.notFound ∧ run.o = o0))
        ∧ ∃ er, run.reads = reads ++ er
          ∧ ∀ i, i ∈ er → pos ≤ i ∧ i < pos + 12 * (N - f) := by
  intro fuel
  induction fuel with
  | zero => intro f pos reads run _ _ _ h; simp [entryLoop] at h
  | succ n ih =>
    intro f pos reads run hf hw hb h
    rw [entryLoop_succ _ _ _ _ _ _ _ _ (fun _ => by omega)] at h
    by_cases hlt : f < N
    · simp only [hlt, if_true] at h
      by_cases hm : EntryMatches d msb pos
      · simp only [hm, if_true, Option.some.injEq] at h
        subst h
        refine ⟨Or.inl ⟨rfl, _, rfl⟩,
          List.range' pos 8 ++ List.range' (pos + 8) 2, by simp, ?_⟩
        intro i hi
        simp only [List.mem_append, List.mem_range'_1] at hi
        omega
      · simp only [hm, if_false] at h
        have hu : u16 (f + 1) = f + 1 := u16_of_lt (by omega)
        have hp : u32 (pos + 12) = pos + 12 := u32_of_lt (by omega)
        rw [hu, hp] at h
        obtain ⟨hex, er, her, hbd⟩ :=
          ih (f + 1) (pos + 12) _ run (by omega) (by omega) (by omega) h
        refine ⟨hex, List.range' pos 8 ++ er, by simp [her], ?_⟩
        intro i hi
        simp only [List.mem_append, List.mem_range'_1] at hi
        rcases hi with hi | hi
        · omega
        · have := hbd i hi
          omega
    · simp only [hlt, if_false, Option.some.injEq] at h
      subst h
      exact ⟨Or.inr ⟨rfl, rfl⟩, [], by simp, by simp⟩

/-- The entry loop adds at most eight indices to the trace for every entry it
passes, and two more when it stops at one: it makes at most `N - f` turns. -/
theorem entryLoop_reads_length (d : List Byte) (msb : Bool) (N o0 : Nat)
    (hN : N < 65536) :
    ∀ (fuel f pos : Nat) (reads : List Nat) (run : Run), f ≤ N →
      entryLoop d msb N o0 fuel f pos reads = some run →
      run.reads.length ≤ reads.length + 8 * (N - f) + 2 := by
  intro fuel
  induction fuel with
  | zero => intro f pos reads run _ h; simp [entryLoop] at h
  | succ n ih =>
    intro f pos reads run hf h
    rw [entryLoop_unfold] at h
    by_cases hlt : f < N
    · simp only [hlt, if_true] at h
      split at h
      · simp only [Option.some.injEq] at h
        subst h
        simp only [List.length_append, List.length_range']
        omega
      · split at h
        · simp only [Option.some.injEq] at h
          subst h
          simp only [List.length_append, List.length_range']
          omega
        · split at h
          · simp only [Option.some.injEq] at h
            subst h
            simp only [List.length_append, List.length_range']
            omega
          · split at h
            · split at h <;>
              · simp only [Option.some.injEq] at h
                subst h
                simp only [List.length_append, List.length_range']
                omega
            · rw [u16_of_lt (n := f + 1) (by omega)] at h
              have := ih (f + 1) _ _ run (by omega) h
              simp only [List.length_append, List.length_range'] at this
              omega
    · simp only [hlt, if_false, Option.some.injEq] at h
      subst h
      show reads.length ≤ _
      omega
/-! ## Basic facts about the scanner -/

theorem rest_length (f : QFile) : f.rest.length = f.bytes.length - f.pos := by
  simp [QFile.rest]

theorem fillLoop_pos (rest : List Byte) :
    ∀ pos, (fillLoop rest pos).1 ≠ 0 →
      pos + 1 ≤ (fillLoop rest pos).2 ∧ (fillLoop rest pos).2 ≤ pos + rest.length := by
  induction rest with
  | nil => intro pos h; simp [fillLoop] at h
  | cons c rest ih =>
    intro pos h
    unfold fillLoop at h ⊢
    by_cases hc : c = JPEG_MARKER_PREFIX
    · simp only [hc, if_true] at h ⊢
      have := ih (pos + 1) h
      simp only [List.length_cons]
      omega
    · simp only [hc, if_false] at h ⊢
      by_cases h0 : c.val = 0
      · simp [h0] at h
      · simp only [h0, if_false, List.length_cons]
        omega

theorem getMarker_nil (f : QFile) (h : f.rest = []) : getMarker f = (0, f) := by
  simp only [getMarker, h]

theorem getMarker_cons (f : QFile) (c : Byte) (rest : List Byte) (h : f.rest = c :: rest) :
    getMarker f = if c ≠ JPEG_MARKER_PREFIX then (0, { f with pos := f.pos + 1 })
      else ((fillLoop rest (f.pos + 1)).1, { f with pos := (fillLoop rest (f.pos + 1)).2 }) := by
  simp only [getMarker, h]

theorem getMarker_bytes (f : QFile) : (getMarker f).2.bytes = f.bytes := by
  cases hr : f.rest with
  | nil => rw [getMarker_nil f hr]
  | cons c rest => rw [getMarker_cons f c rest hr]; split <;> rfl

theorem getMarker_pos (f : QFile) (h : (getMarker f).1 ≠ 0) :
    f.pos + 2 ≤ (getMarker f).2.pos ∧ (getMarker f).2.pos ≤ f.bytes.length := by
  have hl := rest_length f
  cases hr : f.rest with
  | nil => rw [getMarker_nil f hr] at h; simp at h
  | cons c rest =>
    rw [getMarker_cons f c rest hr] at h ⊢
    rw [hr] at hl
    simp only [List.length_cons] at hl
    by_cases hc : c ≠ JPEG_MARKER_PREFIX
    · simp [hc] at h
    · simp only [hc, if_false] at h ⊢
      have := fillLoop_pos rest (f.pos + 1) h
      omega

theorem getMarkerLength_bytes (f : QFile) : (getMarkerLength f).2.bytes = f.bytes := by
  unfold getMarkerLength
  split <;> rfl

theorem getMarkerLength_pos (f : QFile) : f.pos ≤ (getMarkerLength f).2.pos := by
  unfold getMarkerLength
  split <;> simp

theorem seek_bytes (sp : Bool) (f : QFile) (t : Nat) : (f.seek sp t).bytes = f.bytes := by
  unfold QFile.seek
  split <;> rfl

theorem markerLoop_fuel (sp : Bool) :
    ∀ (fuel : Nat) (f : QFile), f.bytes.length - f.pos < fuel →
      markerLoop sp fuel f ≠ ScanResult.outOfFuel := by
  intro fuel
  induction fuel with
  | zero => intro f h; omega
  | succ n ih =>
    intro f h
    have hp := getMarker_pos f
    have hb := getMarker_bytes f
    unfold markerLoop
    simp only
    generalize getMarker f = g at hp hb ⊢
    obtain ⟨marker, f1⟩ := g
    simp only at hp hb ⊢
    by_cases hm : marker = 0
    · simp [hm]
    · have hp1 := hp hm
      simp only [hm, if_false]
      have h1 := getMarkerLength_pos f1
      have h2 := getMarkerLength_bytes f1
      generalize getMarkerLength f1 = l at h1 h2 ⊢
      obtain ⟨len, f2⟩ := l
      simp only at h1 h2 ⊢
      split
      · simp
      · split
        · apply ih
          rw [hb]
          clear * - h hp1
          omega
        · split
          · split
            · simp
            · split <;> simp
          · split
            · simp
            · have h3 := seek_bytes sp f2 (f2.pos + len - 2)
              generalize f2.seek sp (f2.pos + len - 2) = f3 at h3 ⊢
              split
              · simp
              · rename_i _ _ _ hlen hpos
                apply ih
                have : f3.pos = f2.pos + len - 2 := by simpa using hpos
                rw [h3, h2, hb, this]
                clear * - h hp1 h1 hlen
                omega

theorem getExifData_fuel (sp : Bool) (bytes : List Byte) :
    getExifData sp bytes ≠ ScanResult.outOfFuel := by
  unfold getExifData
  simp only
  split
  · simp
  · apply markerLoop_fuel
    rw [getMarker_bytes]
    simp only
    omega

/-! ## The reader before the loop -/

theorem fieldReader_total (d : List Byte) (o0 : Nat) :
    ∃ r, fieldReader d o0 = some r := by
  unfold fieldReader
  simp only
  split
  · exact ⟨_, rfl⟩
  · split
    · exact ⟨_, rfl⟩
    · rename_i msb _
      unfold afterMagic
      simp only
      split
      · exact ⟨_, rfl⟩
      · split
        · exact ⟨_, rfl⟩
        · split
          · exact ⟨_, rfl⟩
          · split
            · exact ⟨_, rfl⟩
            · exact entryLoop_total d msb _ o0 (rd16_lt _ _ _) _ 0 _ _ (by omega) (by omega)

/-- The reader after the magic, in terms of the vocabulary. -/
theorem afterMagic_eq (d : List Byte) (o0 : Nat) (msb : Bool) :
    afterMagic d o0 msb =
      if ifdOffset d msb < TIFF_HEADER_LEN then
        some ⟨Exit.error3, o0, magicReads msb ++ List.range' EXIF_TIFF_MAGIC_LEN 4⟩
      else if u32 d.length < u32 (ifdPos d msb + 2) then
        some ⟨Exit.error4, o0, magicReads msb ++ List.range' EXIF_TIFF_MAGIC_LEN 4⟩
      else if d.length < ifdPos d msb + 2 then
        some ⟨Exit.fault, o0, headerReads d msb⟩
      else if u32 d.length < u32 (firstEntryPos d msb
          + u32 (TIFF_IFD_ENTRY_LEN * fieldCountAt d msb)) then
        some ⟨Exit.error5, o0, headerReads d msb⟩
      else
        entryLoop d msb (fieldCountAt d msb) o0 (fieldCountAt d msb + 1) 0
          (firstEntryPos d msb) (headerReads d msb) := rfl

/-- A payload that passes the checks reaches the entry loop. -/
theorem fieldReader_of_passes (d : List Byte) (o0 : Nat) (msb : Bool)
    (h : PassesChecks d msb) :
    fieldReader d o0 =
      entryLoop d msb (fieldCountAt d msb) o0 (fieldCountAt d msb + 1) 0
        (firstEntryPos d msb) (headerReads d msb) := by
  obtain ⟨h1, h2, h3, h4, h5, h6⟩ := h
  unfold fieldReader
  simp only [h1, if_false, h2]
  rw [afterMagic_eq]
  simp only [h3, h4, h5, h6, if_false]

/-- For a payload of at most 65533 bytes that passes the checks, the whole
directory lies inside the buffer. -/
theorem passes_bounds (d : List Byte) (msb : Bool)
    (hlen : d.length ≤ 65533) (h : PassesChecks d msb) :
    firstEntryPos d msb + 12 * fieldCountAt d msb ≤ d.length := by
  obtain ⟨_, _, _, h4, _, h5⟩ := h
  have hN : fieldCountAt d msb < 65536 := rd16_lt _ _ _
  have hl : u32 d.length = d.length := u32_of_lt (by omega)
  rw [hl] at h4 h5
  have e : u32 (ifdPos d msb + 2) = firstEntryPos d msb := rfl
  rw [e] at h4
  have e2 : u32 (12 * fieldCountAt d msb) = 12 * fieldCountAt d msb :=
    u32_of_lt (by omega)
  simp only [TIFF_IFD_ENTRY_LEN] at h5
  rw [e2, u32_of_lt (by omega)] at h5
  omega

/-- With natural-number bounds (no 32-bit wrap) the checks pass. -/
theorem passes_of_bounds (d : List Byte) (msb : Bool)
    (hlen : d.length ≤ 65533) (h14 : 14 ≤ d.length) (hmagic : detectByteOrder d = some msb)
    (h8 : 8 ≤ ifdOffset d msb) (hp : 6 + ifdOffset d msb + 2 ≤ d.length)
    (hN : 6 + ifdOffset d msb + 2 + 12 * rd16 d msb (6 + ifdOffset d msb)
      ≤ d.length) :
    PassesChecks d msb ∧ ifdPos d msb = 6 + ifdOffset d msb
      ∧ firstEntryPos d msb = 6 + ifdOffset d msb + 2 := by
  have hl : u32 d.length = d.length := u32_of_lt (by omega)
  have e1 : ifdPos d msb = 6 + ifdOffset d msb := by
    show u32 (6 + ifdOffset d msb) = _
    exact u32_of_lt (by omega)
  have e2 : firstEntryPos d msb = 6 + ifdOffset d msb + 2 := by
    unfold firstEntryPos
    rw [e1]
    exact u32_of_lt (by omega)
  have e3 : fieldCountAt d msb = rd16 d msb (6 + ifdOffset d msb) := by
    unfold fieldCountAt
    rw [e1]
  have hN2 := rd16_lt d msb (6 + ifdOffset d msb)
  have e4 : u32 (12 * rd16 d msb (6 + ifdOffset d msb))
      = 12 * rd16 d msb (6 + ifdOffset d msb) := u32_of_lt (by omega)
  refine ⟨⟨?_, hmagic, ?_, ?_, ?_, ?_⟩, e1, e2⟩
  · show ¬ (u32 d.length < 6 + 8)
    rw [hl]; omega
  · show ¬ (ifdOffset d msb < 8)
    omega
  · rw [hl, e1, u32_of_lt (by omega)]; omega
  · rw [e1]; omega
  · show ¬ (u32 d.length < u32 (firstEntryPos d msb + u32 (12 * fieldCountAt d msb)))
    rw [hl, e2, e3, e4, u32_of_lt (by omega)]
    omega

/-- On a payload (of at most 65533 bytes) that takes the reader to the entry
loop, if entry `j` is the first of the directory with tag 0x0112, type 3 and
count 1, the reader stops there with `o` set to the 16-bit value at offset 8 of
that entry, having read only tag, type and count of the entries before it, and
the result is that value when it lies in 1..8 and 1 otherwise. -/
theorem fieldReader_first_match (d : List Byte) (o0 : Nat) (msbFirst : Bool) (j : Nat)
    (hlen : d.length ≤ 65533) (hp : PassesChecks d msbFirst)
    (hj : j < fieldCountAt d msbFirst)
    (hm : EntryMatches d msbFirst (entryPos d msbFirst j))
    (hfirst : ∀ i, i < j → ¬ EntryMatches d msbFirst (entryPos d msbFirst i)) :
    fieldReader d o0 =
        some ⟨Exit.found, rd16 d msbFirst (entryPos d msbFirst j + 8),
          headerReads d msbFirst ++ scanReads (firstEntryPos d msbFirst) j
            ++ List.range' (entryPos d msbFirst j) 8
            ++ List.range' (entryPos d msbFirst j + 8) 2⟩
      ∧ orientationFromPayload d o0 =
        some (if 1 ≤ rd16 d msbFirst (entryPos d msbFirst j + 8)
              ∧ rd16 d msbFirst (entryPos d msbFirst j + 8) ≤ 8
            then rd16 d msbFirst (entryPos d msbFirst j + 8) else 1) := by
  have hb := passes_bounds d msbFirst hlen hp
  have hN : fieldCountAt d msbFirst < 65536 := rd16_lt _ _ _
  have key := entryLoop_found d msbFirst (fieldCountAt d msbFirst) o0 hN j
    (fieldCountAt d msbFirst + 1) 0 (firstEntryPos d msbFirst)
    (headerReads d msbFirst) (by omega) (by omega) (by omega) (by omega) hfirst hm
  have e : firstEntryPos d msbFirst + 12 * j = entryPos d msbFirst j := rfl
  rw [e] at key
  have hr := fieldReader_of_passes d o0 msbFirst hp
  rw [key] at hr
  refine ⟨hr, ?_⟩
  unfold orientationFromPayload
  rw [hr]
  simp only [Option.some_bind, Run.atExit, reduceCtorEq, if_false, Option.map_some',
    Option.some.injEq]
  generalize rd16 d msbFirst (entryPos d msbFirst j + 8) = v
  show (if v < 1 ∨ v > 8 then 1 else v) = _
  split <;> split <;> omega

/-- A run that ends in `fault` ends at the read of the field count, on a
payload whose IFD0 offset makes `pos + 2` wrap; and every such payload makes
the run end there.  This is for payloads of at most 65533 bytes, which is all
an APP1 segment can hold. -/
theorem fieldReader_fault_iff (d : List Byte) (o0 : Nat) (hlen : d.length ≤ 65533) :
    (∃ run, fieldReader d o0 = some run ∧ run.exit = Exit.fault) ↔ WrapsPastBuffer d := by
  have hl : u32 d.length = d.length := u32_of_lt (by omega)
  constructor
  · rintro ⟨run, hrun, hex⟩
    unfold fieldReader at hrun
    simp only [hl] at hrun
    split at hrun
    · simp only [Option.some.injEq] at hrun
      subst hrun
      simp at hex
    · rename_i h14
      have h14b : 14 ≤ d.length := by
        simp only [EXIF_IDENTIFIER_LEN, TIFF_HEADER_LEN] at h14
        omega
      split at hrun
      · simp only [Option.some.injEq] at hrun
        subst hrun
        simp at hex
      · rename_i msb hmagic
        rw [afterMagic_eq, hl] at hrun
        have hoff := rd32_lt d msb EXIF_TIFF_MAGIC_LEN
        have hoff2 : ifdOffset d msb < 4294967296 := hoff
        split at hrun
        · simp only [Option.some.injEq] at hrun
          subst hrun
          simp at hex
        · rename_i h8
          split at hrun
          · simp only [Option.some.injEq] at hrun
            subst hrun
            simp at hex
          · rename_i h4
            split at hrun
            · rename_i h5
              refine ⟨h14b, msb, hmagic, ?_⟩
              have hpdef : ifdPos d msb = (6 + ifdOffset d msb) % 4294967296 := rfl
              have h4b : ¬ d.length < (ifdPos d msb + 2) % 4294967296 := h4
              simp only [TIFF_HEADER_LEN] at h8
              omega
            · rename_i h5
              have hpos : ifdPos d msb + 2 < 4294967296 := by omega
              have hfe : firstEntryPos d msb = ifdPos d msb + 2 := u32_of_lt hpos
              have hN := rd16_lt d msb (ifdPos d msb)
              have hN2 : fieldCountAt d msb < 65536 := hN
              split at hrun
              · simp only [Option.some.injEq] at hrun
                subst hrun
                simp at hex
              · rename_i h6
                have e2 : u32 (TIFF_IFD_ENTRY_LEN * fieldCountAt d msb)
                    = 12 * fieldCountAt d msb := u32_of_lt (by
                  show 12 * fieldCountAt d msb < 4294967296
                  omega)
                rw [e2, u32_of_lt (by omega)] at h6
                obtain ⟨hx, _⟩ := entryLoop_reads d msb (fieldCountAt d msb) o0 hN2 _ 0 _ _ run
                  (by omega) (by omega) (by omega) hrun
                rcases hx with hx | hx
                · rw [hx.1] at hex
                  simp at hex
                · rw [hx.1] at hex
                  simp at hex
  · rintro ⟨h14, msb, hmagic, hlo, hhi⟩
    refine ⟨⟨Exit.fault, o0, headerReads d msb⟩, ?_, rfl⟩
    unfold fieldReader
    have h14b : ¬ d.length < EXIF_IDENTIFIER_LEN + TIFF_HEADER_LEN := by
      simp only [EXIF_IDENTIFIER_LEN, TIFF_HEADER_LEN]
      omega
    simp only [hl, h14b, if_false, hmagic]
    rw [afterMagic_eq, hl]
    have hpdef : ifdPos d msb = (6 + ifdOffset d msb) % 4294967296 := rfl
    have h8 : ¬ ifdOffset d msb < TIFF_HEADER_LEN := by
      simp only [TIFF_HEADER_LEN]
      omega
    have h4 : ¬ d.length < u32 (ifdPos d msb + 2) := by
      show ¬ d.length < (ifdPos d msb + 2) % 4294967296
      omega
    have h5 : d.length < ifdPos d msb + 2 := by omega
    simp only [h8, h4, h5, if_false, if_true]

/-- On a payload whose IFD0 offset makes `pos + 2` wrap, the run ends at the
read of the field count, outside the buffer. -/
theorem fieldReader_of_wraps (d : List Byte) (o0 : Nat) (msb : Bool)
    (hlen : d.length ≤ 65533) (h14 : 14 ≤ d.length) (hmagic : detectByteOrder d = some msb)
    (hlo : 4294967288 ≤ ifdOffset d msb) (hhi : ifdOffset d msb ≤ 4294967289) :
    fieldReader d o0 = some ⟨Exit.fault, o0, headerReads d msb⟩ := by
  have hl : u32 d.length = d.length := u32_of_lt (by omega)
  unfold fieldReader
  have h14b : ¬ d.length < EXIF_IDENTIFIER_LEN + TIFF_HEADER_LEN := by
    simp only [EXIF_IDENTIFIER_LEN, TIFF_HEADER_LEN]
    omega
  simp only [hl, h14b, if_false, hmagic]
  rw [afterMagic_eq, hl]
  have hpdef : ifdPos d msb = (6 + ifdOffset d msb) % 4294967296 := rfl
  have h8 : ¬ ifdOffset d msb < TIFF_HEADER_LEN := by
    simp only [TIFF_HEADER_LEN]
    omega
  have h4 : ¬ d.length < u32 (ifdPos d msb + 2) := by
    show ¬ d.length < (ifdPos d msb + 2) % 4294967296
    omega
  have h5 : d.length < ifdPos d msb + 2 := by omega
  simp only [h8, h4, h5, if_false, if_true]
/-! ## The scanner on well-formed streams -/

theorem fillLoop_replicate (c : Byte) (tail : List Byte) (hc : c ≠ JPEG_MARKER_PREFIX)
    (h0 : c.val ≠ 0) :
    ∀ (k pos : Nat), fillLoop (List.replicate k JPEG_MARKER_PREFIX ++ c :: tail) pos
      = (c.val, pos + k + 1) := by
  intro k
  induction k with
  | zero => intro pos; simp [fillLoop, hc, h0]
  | succ k ih =>
    intro pos
    rw [List.replicate_succ, List.cons_append]
    unfold fillLoop
    simp only [if_true]
    rw [ih (pos + 1)]
    congr 1
    omega

theorem rest_advance (f : QFile) (a b : List Byte) (h : f.rest = a ++ b) :
    (⟨f.bytes, f.pos + a.length⟩ : QFile).rest = b := by
  unfold QFile.rest at h ⊢
  simp only
  rw [← List.drop_drop, h]
  simp

theorem markerBytes_length (k : Nat) (c : Byte) : (markerBytes k c).length = k + 2 := by
  simp [markerBytes]

theorem getMarker_marker (f : QFile) (k : Nat) (c : Byte) (tail : List Byte)
    (h : f.rest = markerBytes k c ++ tail) (hc : c ≠ JPEG_MARKER_PREFIX) (h0 : c.val ≠ 0) :
    getMarker f = (c.val, ⟨f.bytes, f.pos + (markerBytes k c).length⟩) := by
  have h2 : f.rest = JPEG_MARKER_PREFIX :: (List.replicate k JPEG_MARKER_PREFIX ++ c :: tail) := by
    rw [h]
    simp [markerBytes, List.replicate_succ]
  rw [getMarker_cons f _ _ h2]
  simp only [ne_eq, not_true_eq_false, if_false]
  rw [fillLoop_replicate c tail hc h0, markerBytes_length]
  simp only
  congr 2
  omega

theorem be16_value (n : Nat) (h : n < 65536) :
    (Fin.ofNat (n / 256) : Byte).val * 256 + (Fin.ofNat n : Byte).val = n := by
  show (n / 256 % 256) * 256 + n % 256 = n
  omega

theorem getMarkerLength_be16 (f : QFile) (n : Nat) (tail : List Byte)
    (h : f.rest = be16 n ++ tail) (hn : n < 65536) :
    getMarkerLength f = (n, ⟨f.bytes, f.pos + (be16 n).length⟩) := by
  unfold getMarkerLength
  rw [h]
  simp only [be16, List.cons_append, List.nil_append]
  rw [be16_value n hn]
  rfl

theorem markerLoop_succ (sp : Bool) (fuel : Nat) (f : QFile) :
    markerLoop sp (fuel + 1) f =
      if (getMarker f).1 = 0 then ScanResult.failed
      else if (getMarker f).1 = JPEG_MARKER_SOI ∨ (getMarker f).1 = JPEG_MARKER_EOI then
        ScanResult.failed
      else if (getMarker f).1 = JPEG_MARKER_TEM ∨ (getMarker f).1 = JPEG_MARKER_RST0
          ∨ (getMarker f).1 = JPEG_MARKER_RST1 ∨ (getMarker f).1 = JPEG_MARKER_RST2
          ∨ (getMarker f).1 = JPEG_MARKER_RST3 ∨ (getMarker f).1 = JPEG_MARKER_RST4
          ∨ (getMarker f).1 = JPEG_MARKER_RST5 ∨ (getMarker f).1 = JPEG_MARKER_RST6
          ∨ (getMarker f).1 = JPEG_MARKER_RST7 then
        markerLoop sp fuel (getMarker f).2
      else if (getMarker f).1 = JPEG_MARKER_APP1 then
        if (getMarkerLength (getMarker f).2).1 < 2 then ScanResult.failed
        else if ((getMarkerLength (getMarker f).2).2.rest.take
            ((getMarkerLength (getMarker f).2).1 - 2)).length
            ≠ (getMarkerLength (getMarker f).2).1 - 2 then ScanResult.failed
        else ScanResult.payload ((getMarkerLength (getMarker f).2).2.rest.take
            ((getMarkerLength (getMarker f).2).1 - 2))
      else
        if (getMarkerLength (getMarker f).2).1 < 2 then ScanResult.failed
        else if ((getMarkerLength (getMarker f).2).2.seek sp
            ((getMarkerLength (getMarker f).2).2.pos + (getMarkerLength (getMarker f).2).1 - 2)).pos
            ≠ (getMarkerLength (getMarker f).2).2.pos + (getMarkerLength (getMarker f).2).1 - 2 then
          ScanResult.failed
        else markerLoop sp fuel ((getMarkerLength (getMarker f).2).2.seek sp
            ((getMarkerLength (getMarker f).2).2.pos + (getMarkerLength (getMarker f).2).1 - 2)) :=
  rfl

theorem standalone_facts (c : Byte) (h : IsStandalone c) :
    c ≠ JPEG_MARKER_PREFIX ∧ c.val ≠ 0 ∧ c.val ≠ 0xd8 ∧ c.val ≠ 0xd9
      ∧ (c.val = 0x01 ∨ c.val = 0xd0 ∨ c.val = 0xd1 ∨ c.val = 0xd2 ∨ c.val = 0xd3
        ∨ c.val = 0xd4 ∨ c.val = 0xd5 ∨ c.val = 0xd6 ∨ c.val = 0xd7) := by
  have h2 : c.val = 1 ∨ (208 ≤ c.val ∧ c.val ≤ 215) := h
  refine ⟨?_, by omega, by omega, by omega, by omega⟩
  intro hc
  rw [hc] at h2
  exact absurd h2 (by decide)

theorem markerLoop_standalone (sp : Bool) (fuel : Nat) (f : QFile) (k : Nat) (c : Byte)
    (tail : List Byte) (h : f.rest = markerBytes k c ++ tail) (hs : IsStandalone c) :
    markerLoop sp (fuel + 1) f
      = markerLoop sp fuel ⟨f.bytes, f.pos + (markerBytes k c).length⟩ := by
  obtain ⟨hc, h0, h1, h2, h3⟩ := standalone_facts c hs
  rw [markerLoop_succ, getMarker_marker f k c tail h hc h0]
  simp only [h0, if_false, JPEG_MARKER_SOI, JPEG_MARKER_EOI, h1, h2, or_self]
  rw [if_pos h3]

theorem markerLoop_segment (sp : Bool) (fuel : Nat) (f : QFile) (k : Nat) (c : Byte)
    (body tail : List Byte)
    (h : f.rest = (markerBytes k c ++ be16 (body.length + 2) ++ body) ++ tail)
    (hs : IsOtherSegment c) (hb : body.length ≤ 65533) :
    markerLoop sp (fuel + 1) f
      = markerLoop sp fuel
          ⟨f.bytes, f.pos + (markerBytes k c ++ be16 (body.length + 2) ++ body).length⟩ := by
  obtain ⟨h0, hc, hns, h1, h2, h3⟩ := hs
  have hns2 : ¬ (c.val = 0x01 ∨ c.val = 0xd0 ∨ c.val = 0xd1 ∨ c.val = 0xd2 ∨ c.val = 0xd3
        ∨ c.val = 0xd4 ∨ c.val = 0xd5 ∨ c.val = 0xd6 ∨ c.val = 0xd7) := by
    intro hh
    apply hns
    show c.val = 1 ∨ (208 ≤ c.val ∧ c.val ≤ 215)
    omega
  have hA : f.rest = markerBytes k c ++ (be16 (body.length + 2) ++ (body ++ tail)) := by
    rw [h]; simp
  have hl := rest_length f
  rw [hA] at hl
  simp only [List.length_append, markerBytes_length, be16, List.length_cons,
    List.length_nil] at hl
  rw [markerLoop_succ, getMarker_marker f k c _ hA hc h0]
  have hB := rest_advance f _ _ hA
  rw [getMarkerLength_be16 _ (body.length + 2) _ hB (by omega)]
  have hC := rest_advance _ _ _ hB
  simp only [h0, if_false, h1, h2, h3, or_self, JPEG_MARKER_SOI, JPEG_MARKER_EOI,
    JPEG_MARKER_APP1]
  rw [if_neg hns2]
  have hlen2 : ¬ body.length + 2 < 2 := by omega
  simp only [hlen2, if_false]
  have hseek : (QFile.seek sp
      ⟨f.bytes, f.pos + (markerBytes k c).length + (be16 (body.length + 2)).length⟩
      (f.pos + (markerBytes k c).length + (be16 (body.length + 2)).length
        + (body.length + 2) - 2))
      = ⟨f.bytes, f.pos + (markerBytes k c ++ be16 (body.length + 2) ++ body).length⟩ := by
    unfold QFile.seek
    simp only [markerBytes_length, be16, List.length_cons, List.length_nil,
      List.length_append]
    have : f.pos + (k + 2) + (0 + 1 + 1) + (body.length + 2) - 2 ≤ f.bytes.length := by omega
    simp only [this, true_or, if_true]
    congr 1
    omega
  rw [hseek]
  simp only [markerBytes_length, be16, List.length_cons, List.length_nil,
    List.length_append]
  have : ¬ (f.pos + (k + 2 + (0 + 1 + 1) + body.length)
      ≠ f.pos + (k + 2) + (0 + 1 + 1) + (body.length + 2) - 2) := by omega
  rw [if_neg this]

theorem markerLoop_app1 (sp : Bool) (fuel : Nat) (f : QFile) (k : Nat)
    (payload trailing : List Byte)
    (h : f.rest = markerBytes k 0xe1 ++ (be16 (payload.length + 2) ++ (payload ++ trailing)))
    (hb : payload.length ≤ 65533) :
    markerLoop sp (fuel + 1) f = ScanResult.payload payload := by
  rw [markerLoop_succ, getMarker_marker f k 0xe1 _ h (by decide) (by decide)]
  have hB := rest_advance f _ _ h
  rw [getMarkerLength_be16 _ (payload.length + 2) _ hB (by omega)]
  have hC := rest_advance _ _ _ hB
  simp only [hC]
  have e : ((0xe1 : Byte).val : Nat) = 225 := rfl
  simp only [e, JPEG_MARKER_SOI, JPEG_MARKER_EOI, JPEG_MARKER_TEM, JPEG_MARKER_RST0,
    JPEG_MARKER_RST1, JPEG_MARKER_RST2, JPEG_MARKER_RST3, JPEG_MARKER_RST4, JPEG_MARKER_RST5,
    JPEG_MARKER_RST6, JPEG_MARKER_RST7, JPEG_MARKER_APP1]
  simp

theorem encode_length_ge (it : Item) : 2 ≤ it.encode.length := by
  cases it with
  | standalone k c => simp [Item.encode, markerBytes_length]
  | segment k c body =>
    simp only [Item.encode, List.length_append, markerBytes_length]
    omega

theorem encodeItems_length_ge (items : List Item) :
    2 * items.length ≤ (encodeItems items).length := by
  induction items with
  | nil => simp [encodeItems]
  | cons it rest ih =>
    have := encode_length_ge it
    simp only [encodeItems, List.length_append, List.length_cons]
    omega

/-- The marker loop passes a sequence of well-formed items, one turn each. -/
theorem markerLoop_items (sp : Bool) :
    ∀ (items : List Item) (fuel : Nat) (f : QFile) (tail : List Byte),
      (∀ it, it ∈ items → it.WellFormed) → f.rest = encodeItems items ++ tail →
      markerLoop sp (fuel + items.length) f
        = markerLoop sp fuel ⟨f.bytes, f.pos + (encodeItems items).length⟩ := by
  intro items
  induction items with
  | nil =>
    intro fuel f tail _ _
    simp [encodeItems]
  | cons it rest ih =>
    intro fuel f tail hw h
    have hit : it.WellFormed := hw it (List.mem_cons_self _ _)
    have hrest : ∀ x, x ∈ rest → x.WellFormed := fun x hx => hw x (List.mem_cons_of_mem _ hx)
    have hA : f.rest = it.encode ++ (encodeItems rest ++ tail) := by
      rw [h]; simp [encodeItems]
    have hB := rest_advance f _ _ hA
    have e : fuel + (it :: rest).length = (fuel + rest.length) + 1 := by
      simp only [List.length_cons]
      omega
    rw [e]
    have step : markerLoop sp (fuel + rest.length + 1) f
        = markerLoop sp (fuel + rest.length) ⟨f.bytes, f.pos + it.encode.length⟩ := by
      cases it with
      | standalone k c => exact markerLoop_standalone sp _ f k c _ hA hit
      | segment k c body => exact markerLoop_segment sp _ f k c body _ hA hit.1 hit.2
    rw [step, ih fuel _ (tail) hrest hB]
    simp only [encodeItems, List.length_append]
    congr 2
    omega

set_option maxRecDepth 8000 in
/-- For either byte order and every `V` in 1..8 the 28-byte minimal block
with the single Orientation entry of value `V` makes the field reader (with
the range check at `exit`) return exactly `V`, whatever `o` held before. -/
theorem orientationFromPayload_minimalBlock (o0 : Nat) (msbFirst : Bool) (V : Nat)
    (h1 : 1 ≤ V) (h8 : V ≤ 8) :
    (minimalBlock msbFirst V).length = 28
      ∧ orientationFromPayload (minimalBlock msbFirst V) o0 = some V := by
  cases msbFirst
  · interval_cases V <;>
    · refine ⟨by decide, ?_⟩
      rw [(fieldReader_first_match _ o0 false 0 (by decide) (by decide) (by decide)
          (by decide) (fun i hi => absurd hi (Nat.not_lt_zero i))).2]
      decide
  · interval_cases V <;>
    · refine ⟨by decide, ?_⟩
      rw [(fieldReader_first_match _ o0 true 0 (by decide) (by decide) (by decide)
          (by decide) (fun i hi => absurd hi (Nat.not_lt_zero i))).2]
      decide

/-- On a cache miss, with the file opened and an APP1 payload found, the value
returned is the field reader's value after the range check. -/
theorem exif_of_payload (env : Env) (cache : OrientationCache) (fname : String)
    (bytes data : List Byte) (hc : cache fname = none)
    (hf : env.fs (fname.replace "file://" "") = some bytes)
    (hs : getExifData env.seekPastEnd bytes = ScanResult.payload data) :
    (exifOrientationFromJpeg env cache fname).map Prod.fst
      = orientationFromPayload data env.o0 := by
  unfold exifOrientationFromJpeg valueAtExit orientationFromPayload
  simp only [hc, hf, hs]
  cases (fieldReader data env.o0).bind Run.atExit <;> simp

theorem getExifData_jpegStream (sp : Bool) (fill0 fillA : Nat) (items : List Item)
    (payload trailing : List Byte) (hitems : ∀ it, it ∈ items → it.WellFormed)
    (hpay : payload.length ≤ 65533) :
    getExifData sp (jpegStream fill0 items fillA payload trailing)
      = ScanResult.payload payload := by
  have hlen := encodeItems_length_ge items
  have h0 : (⟨jpegStream fill0 items fillA payload trailing, 0⟩ : QFile).rest
      = markerBytes fill0 0xd8 ++ (encodeItems items
        ++ (markerBytes fillA 0xe1 ++ (be16 (payload.length + 2) ++ (payload ++ trailing)))) := by
    simp [QFile.rest, jpegStream]
  have h1 := rest_advance _ _ _ h0
  have h2 := rest_advance _ _ _ h1
  have hL : (jpegStream fill0 items fillA payload trailing).length
      = (markerBytes fill0 0xd8).length + ((encodeItems items).length
        + ((markerBytes fillA 0xe1).length + ((be16 (payload.length + 2)).length
          + (payload.length + trailing.length)))) := by
    simp [jpegStream]
  unfold getExifData
  rw [getMarker_marker _ fill0 0xd8 _ h0 (by decide) (by decide)]
  have e : ((0xd8 : Byte).val : Nat) = JPEG_MARKER_SOI := rfl
  simp only [e, ne_eq, not_true_eq_false, if_false]
  obtain ⟨F, hF⟩ : ∃ F, (jpegStream fill0 items fillA payload trailing).length + 1
      = (F + 1) + items.length :=
    ⟨(jpegStream fill0 items fillA payload trailing).length - items.length, by omega⟩
  rw [hF, markerLoop_items sp items (F + 1) _ _ hitems h1]
  exact markerLoop_app1 sp F _ fillA payload trailing h2 hpay


theorem fillLoop_inv : ∀ (rest : List Byte) (pos : Nat), (fillLoop rest pos).1 ≠ 0 →
    ∃ (k : Nat) (c : Byte) (tail : List Byte),
      rest = List.replicate k JPEG_MARKER_PREFIX ++ c :: tail ∧ c.val = (fillLoop rest pos).1 := by
  intro rest
  induction rest with
  | nil => intro pos h; simp [fillLoop] at h
  | cons c rest ih =>
    intro pos h
    unfold fillLoop at h ⊢
    by_cases hc : c = JPEG_MARKER_PREFIX
    · simp only [hc, if_true] at h ⊢
      obtain ⟨k, c2, tail, h1, h2⟩ := ih (pos + 1) h
      exact ⟨k + 1, c2, tail, by rw [h1, List.replicate_succ, List.cons_append], h2⟩
    · simp only [hc, if_false] at h ⊢
      by_cases h0 : c.val = 0
      · simp [h0] at h
      · simp only [h0, if_false]
        exact ⟨0, c, rest, by simp, rfl⟩

/-- When `getMarker` at the start of a file returns SOI, the file begins with
one or more 0xff bytes followed by 0xd8. -/
theorem getMarker_soi_inv (bytes : List Byte)
    (h : (getMarker ⟨bytes, 0⟩).1 = JPEG_MARKER_SOI) :
    ∃ k rest, bytes = markerBytes k 0xd8 ++ rest := by
  have hr : (⟨bytes, 0⟩ : QFile).rest = bytes := by simp [QFile.rest]
  cases hb : bytes with
  | nil =>
    rw [hb] at hr h
    rw [getMarker_nil _ hr] at h
    simp at h
  | cons c rest =>
    rw [hb] at hr h
    rw [getMarker_cons _ c rest hr] at h
    by_cases hc : c ≠ JPEG_MARKER_PREFIX
    · simp [hc] at h
    · simp only [hc, if_false] at h
      have hc2 : c = JPEG_MARKER_PREFIX := by simpa using hc
      have hne : (fillLoop rest (0 + 1)).1 ≠ 0 := by rw [h]; decide
      obtain ⟨k, c2, tail, h1, h2⟩ := fillLoop_inv rest (0 + 1) hne
      rw [h] at h2
      have hc3 : c2 = 0xd8 := Fin.ext h2
      refine ⟨k, tail, ?_⟩
      rw [hc2, h1, hc3]
      simp [markerBytes, List.replicate_succ]


/-! ## The scanner on streams that make it fail -/

/-- After SOI and a sequence of well-formed items the scanner stands right
behind them, with fuel left for at least two more turns of the loop. -/
theorem getExifData_scanStream (sp : Bool) (fill0 : Nat) (items : List Item)
    (tail : List Byte) (hitems : ∀ it, it ∈ items → it.WellFormed) :
    ∃ (f : QFile) (F : Nat), f.bytes = scanStream fill0 items tail ∧ f.rest = tail
      ∧ getExifData sp (scanStream fill0 items tail) = markerLoop sp (F + 2) f := by
  have hlen := encodeItems_length_ge items
  have h0 : (⟨scanStream fill0 items tail, 0⟩ : QFile).rest
      = markerBytes fill0 0xd8 ++ (encodeItems items ++ tail) := by
    simp [QFile.rest, scanStream]
  have h1 := rest_advance _ _ _ h0
  have h2 := rest_advance _ _ _ h1
  have hL : (scanStream fill0 items tail).length
      = (fill0 + 2) + ((encodeItems items).length + tail.length) := by
    simp [scanStream, markerBytes_length]
  obtain ⟨F, hF⟩ : ∃ F, (scanStream fill0 items tail).length + 1
      = (F + 2) + items.length :=
    ⟨(scanStream fill0 items tail).length - items.length - 1, by omega⟩
  refine ⟨_, F, rfl, h2, ?_⟩
  unfold getExifData
  rw [getMarker_marker _ fill0 0xd8 _ h0 (by decide) (by decide)]
  have e : ((0xd8 : Byte).val : Nat) = JPEG_MARKER_SOI := rfl
  simp only [e, ne_eq, not_true_eq_false, if_false]
  rw [hF, markerLoop_items sp items (F + 2) _ _ hitems h1]

theorem markerLoop_soi_eoi (sp : Bool) (fuel : Nat) (f : QFile) (k : Nat) (c : Byte)
    (tail : List Byte) (h : f.rest = markerBytes k c ++ tail)
    (hc : c.val = JPEG_MARKER_SOI ∨ c.val = JPEG_MARKER_EOI) :
    markerLoop sp (fuel + 1) f = ScanResult.failed := by
  have hc1 : c.val = 216 ∨ c.val = 217 := hc
  have hff : c ≠ JPEG_MARKER_PREFIX := by
    intro h2
    rw [h2] at hc1
    exact absurd hc1 (by decide)
  have h0 : c.val ≠ 0 := by omega
  rw [markerLoop_succ, getMarker_marker f k c tail h hff h0]
  simp only [h0, if_false]
  rw [if_pos hc]

theorem lengthPrefixed_facts (c : Byte) (h : IsLengthPrefixed c) :
    c ≠ JPEG_MARKER_PREFIX ∧ c.val ≠ 0 ∧ c.val ≠ 0xd8 ∧ c.val ≠ 0xd9
      ∧ ¬ (c.val = 0x01 ∨ c.val = 0xd0 ∨ c.val = 0xd1 ∨ c.val = 0xd2 ∨ c.val = 0xd3
        ∨ c.val = 0xd4 ∨ c.val = 0xd5 ∨ c.val = 0xd6 ∨ c.val = 0xd7) := by
  rcases h with h | h
  · have h1 : c.val = 225 := h
    refine ⟨?_, by omega, by omega, by omega, by omega⟩
    intro h2
    rw [h2] at h1
    exact absurd h1 (by decide)
  · obtain ⟨h0, hc, hns, h1, h2, _⟩ := h
    refine ⟨hc, h0, h1, h2, ?_⟩
    intro hh
    apply hns
    show c.val = 1 ∨ (208 ≤ c.val ∧ c.val ≤ 215)
    omega

/-- A length-prefixed marker whose length comes out below 2 ends the scan. -/
theorem markerLoop_bad_length (sp : Bool) (fuel : Nat) (f : QFile) (k : Nat) (c : Byte)
    (tail : List Byte) (h : f.rest = markerBytes k c ++ tail) (hc : IsLengthPrefixed c)
    (hl : (getMarkerLength ⟨f.bytes, f.pos + (markerBytes k c).length⟩).1 < 2) :
    markerLoop sp (fuel + 1) f = ScanResult.failed := by
  obtain ⟨hff, h0, h1, h2, h3⟩ := lengthPrefixed_facts c hc
  rw [markerLoop_succ, getMarker_marker f k c tail h hff h0]
  simp only [h0, if_false, JPEG_MARKER_SOI, JPEG_MARKER_EOI, h1, h2, or_self]
  rw [if_neg h3]
  simp only [hl, if_true]
  split <;> rfl

theorem getMarkerLength_short (f : QFile) (h : f.rest.length < 2) :
    (getMarkerLength f).1 = 0 := by
  unfold getMarkerLength
  split
  · rename_i heq
    rw [heq] at h
    simp only [List.length_cons] at h
    omega
  · rfl
  · rfl

/-- A length-prefixed segment that declares more bytes than the stream holds
ends the scan: at once for APP1 and when the seek fails, and at the next turn
of the loop when the seek moves past the end. -/
theorem markerLoop_truncated (sp : Bool) (fuel : Nat) (f : QFile) (k : Nat) (c : Byte)
    (L : Nat) (short : List Byte) (h : f.rest = markerBytes k c ++ (be16 L ++ short))
    (hc : IsLengthPrefixed c) (hL2 : 2 ≤ L) (hL16 : L < 65536)
    (hs : short.length < L - 2) :
    markerLoop sp (fuel + 2) f = ScanResult.failed := by
  obtain ⟨hff, h0, h1, h2, h3⟩ := lengthPrefixed_facts c hc
  have hl := rest_length f
  rw [h] at hl
  simp only [List.length_append, markerBytes_length, be16, List.length_cons,
    List.length_nil] at hl
  have hB := rest_advance f _ _ h
  have hC := rest_advance _ _ _ hB
  rw [markerLoop_succ, getMarker_marker f k c _ h hff h0,
    getMarkerLength_be16 _ L short hB hL16]
  simp only [h0, if_false, JPEG_MARKER_SOI, JPEG_MARKER_EOI, h1, h2, or_self]
  rw [if_neg h3]
  have hlen2 : ¬ L < 2 := by omega
  simp only [hlen2, if_false]
  by_cases hA : c.val = JPEG_MARKER_APP1
  · rw [if_pos hA, hC]
    have : (List.take (L - 2) short).length ≠ L - 2 := by
      rw [List.length_take]
      omega
    rw [if_pos this]
  · rw [if_neg hA]
    simp only [markerBytes_length, be16, List.length_cons, List.length_nil]
    cases sp with
    | false =>
      have hno : ¬ (f.pos + (k + 2) + (0 + 1 + 1) + L - 2 ≤ f.bytes.length
          ∨ false = true) := by
        simp only [Bool.false_eq_true, or_false]
        omega
      simp only [QFile.seek, hno, if_false]
      have : f.pos + (k + 2) + (0 + 1 + 1) ≠ f.pos + (k + 2) + (0 + 1 + 1) + L - 2 := by omega
      rw [if_pos this]
    | true =>
      simp only [QFile.seek, or_true, if_true, ne_eq, not_true_eq_false, if_false]
      rw [markerLoop_succ]
      have hnil : (⟨f.bytes, f.pos + (k + 2) + (0 + 1 + 1) + L - 2⟩ : QFile).rest = [] := by
        unfold QFile.rest
        simp only
        apply List.drop_eq_nil_of_le
        omega
      rw [getMarker_nil _ hnil]
      simp

/-! ## What `getMarker` accepts -/

theorem fillLoop_inv_full : ∀ (rest : List Byte) (pos : Nat), (fillLoop rest pos).1 ≠ 0 →
    ∃ (k : Nat) (c : Byte) (tail : List Byte),
      rest = List.replicate k JPEG_MARKER_PREFIX ++ c :: tail
        ∧ c ≠ JPEG_MARKER_PREFIX ∧ c.val ≠ 0 := by
  intro rest
  induction rest with
  | nil => intro pos h; simp [fillLoop] at h
  | cons c rest ih =>
    intro pos h
    unfold fillLoop at h
    by_cases hc : c = JPEG_MARKER_PREFIX
    · simp only [hc, if_true] at h
      obtain ⟨k, c2, tail, h1, h2, h3⟩ := ih (pos + 1) h
      exact ⟨k + 1, c2, tail, by rw [hc, h1, List.replicate_succ, List.cons_append], h2, h3⟩
    · simp only [hc, if_false] at h
      by_cases h0 : c.val = 0
      · simp [h0] at h
      · exact ⟨0, c, rest, by simp, hc, h0⟩

/-- When `getMarker` returns a nonzero value, the unread bytes begin with one or
more 0xff bytes followed by a byte that is neither 0xff nor 0. -/
theorem getMarker_inv (f : QFile) (h : (getMarker f).1 ≠ 0) :
    ∃ (k : Nat) (c : Byte) (tail : List Byte),
      f.rest = List.replicate (k + 1) JPEG_MARKER_PREFIX ++ c :: tail
        ∧ c ≠ JPEG_MARKER_PREFIX ∧ c.val ≠ 0 := by
  cases hr : f.rest with
  | nil =>
    rw [getMarker_nil f hr] at h
    simp at h
  | cons c rest =>
    rw [getMarker_cons f c rest hr] at h
    by_cases hc : c ≠ JPEG_MARKER_PREFIX
    · simp [hc] at h
    · simp only [hc, if_false] at h
      have hc2 : c = JPEG_MARKER_PREFIX := by simpa using hc
      obtain ⟨k, c2, tail, h1, h2, h3⟩ := fillLoop_inv_full rest (f.pos + 1) h
      exact ⟨k, c2, tail, by rw [hc2, h1, List.replicate_succ, List.cons_append], h2, h3⟩

theorem markerLoop_marker_zero (sp : Bool) (fuel : Nat) (f : QFile)
    (h : (getMarker f).1 = 0) : markerLoop sp (fuel + 1) f = ScanResult.failed := by
  rw [markerLoop_succ, if_pos h]

theorem getExifData_marker_zero (sp : Bool) (bytes : List Byte)
    (h : (getMarker ⟨bytes, 0⟩).1 = 0) : getExifData sp bytes = ScanResult.failed := by
  unfold getExifData
  simp only [h]
  rfl

/-! ## Termination -/

/-- The marker loop is its single turn, repeated. -/
theorem markerLoop_step (sp : Bool) (fuel : Nat) (f : QFile) :
    markerLoop sp (fuel + 1) f =
      match markerStep sp f with
      | Sum.inl r => r
      | Sum.inr f2 => markerLoop sp fuel f2 := by
  rw [markerLoop_succ]
  unfold markerStep
  simp only
  split
  · rfl
  · split
    · rfl
    · split
      · rfl
      · split
        · split
          · rfl
          · split <;> rfl
        · split
          · rfl
          · split <;> rfl

/-- A turn of the marker loop that does not return has consumed at least two
bytes of the file, all of them inside it. -/
theorem markerStep_progress (sp : Bool) (f f2 : QFile) (h : markerStep sp f = Sum.inr f2) :
    f.pos + 2 ≤ f2.pos ∧ f2.bytes = f.bytes ∧ f.pos + 2 ≤ f.bytes.length := by
  have hp := getMarker_pos f
  have hb := getMarker_bytes f
  unfold markerStep at h
  simp only at h
  generalize getMarker f = g at hp hb h
  obtain ⟨marker, f1⟩ := g
  simp only at hp hb h
  by_cases hm : marker = 0
  · simp [hm] at h
  · have hp1 := hp hm
    simp only [hm, if_false] at h
    have h1 := getMarkerLength_pos f1
    have h2 := getMarkerLength_bytes f1
    generalize getMarkerLength f1 = l at h1 h2 h
    obtain ⟨len, f3⟩ := l
    simp only at h1 h2 h
    split at h
    · simp at h
    · split at h
      · simp only [Sum.inr.injEq] at h
        subst h
        exact ⟨hp1.1, hb, by omega⟩
      · split at h
        · split at h
          · simp at h
          · split at h <;> simp at h
        · split at h
          · simp at h
          · have h3 := seek_bytes sp f3 (f3.pos + len - 2)
            generalize f3.seek sp (f3.pos + len - 2) = f4 at h3 h
            split at h
            · simp at h
            · rename_i _ _ _ hlen hpos
              simp only [Sum.inr.injEq] at h
              subst h
              have : f4.pos = f3.pos + len - 2 := by simpa using hpos
              refine ⟨?_, by rw [h3, h2, hb], ?_⟩
              · rw [this]
                clear * - hp1 h1 hlen
                omega
              · clear * - hp1
                omega

/-- The fill-byte loop ends after at most as many steps as bytes are left, with
the position advanced by one for every byte it took. -/
theorem fillLoop_bounds : ∀ (rest : List Byte) (pos : Nat),
    pos ≤ (fillLoop rest pos).2 ∧ (fillLoop rest pos).2 ≤ pos + rest.length := by
  intro rest
  induction rest with
  | nil => intro pos; simp [fillLoop]
  | cons c rest ih =>
    intro pos
    unfold fillLoop
    have := ih (pos + 1)
    simp only [List.length_cons]
    split
    · omega
    · split <;> simp only <;> omega
/-! ## The whole function -/

theorem normalize_range (o : Nat) : 1 ≤ normalize o ∧ normalize o ≤ 8 := by
  show 1 ≤ (if o < 1 ∨ o > 8 then 1 else o) ∧ (if o < 1 ∨ o > 8 then 1 else o) ≤ 8
  split <;> omega

theorem getMarkerLength_lt (f : QFile) : (getMarkerLength f).1 < 65536 := by
  unfold getMarkerLength
  split
  · rename_i b0 b1 _ _
    have h0 := b0.isLt
    have h1 := b1.isLt
    simp only
    omega
  · simp
  · simp

theorem markerStep_payload_length (sp : Bool) (f : QFile) (data : List Byte)
    (h : markerStep sp f = Sum.inl (ScanResult.payload data)) : data.length ≤ 65533 := by
  unfold markerStep at h
  simp only at h
  have hl := getMarkerLength_lt (getMarker f).2
  generalize getMarkerLength (getMarker f).2 = l at hl h
  obtain ⟨len, f2⟩ := l
  simp only at hl h
  split at h
  · simp at h
  · split at h
    · simp at h
    · split at h
      · simp at h
      · split at h
        · split at h
          · simp at h
          · split at h
            · simp at h
            · simp only [Sum.inl.injEq, ScanResult.payload.injEq] at h
              subst h
              rw [List.length_take]
              clear * - hl
              omega
        · split at h
          · simp at h
          · split at h <;> simp at h

theorem markerLoop_payload_length (sp : Bool) (data : List Byte) :
    ∀ (fuel : Nat) (f : QFile), markerLoop sp fuel f = ScanResult.payload data →
      data.length ≤ 65533 := by
  intro fuel
  induction fuel with
  | zero => intro f h; simp [markerLoop] at h
  | succ n ih =>
    intro f h
    rw [markerLoop_step] at h
    cases hs : markerStep sp f with
    | inl r =>
      rw [hs] at h
      simp only at h
      rw [h] at hs
      exact markerStep_payload_length sp f data hs
    | inr f2 =>
      rw [hs] at h
      exact ih f2 h

/-- An APP1 payload handed back by `getExifData` has at most 65533 bytes. -/
theorem getExifData_payload_length (sp : Bool) (bytes data : List Byte)
    (h : getExifData sp bytes = ScanResult.payload data) : data.length ≤ 65533 := by
  unfold getExifData at h
  simp only at h
  split at h
  · simp at h
  · exact markerLoop_payload_length sp data _ _ h

/-- The call arrives at `exit` with some value of `o`, unless the reader read
outside the payload buffer; and it does not arrive there when it did. -/
theorem valueAtExit_cases (env : Env) (fname : String) :
    ((∃ o, valueAtExit env fname = some o) ∧ ¬ ReaderFaults env fname)
      ∨ (valueAtExit env fname = none ∧ ReaderFaults env fname) := by
  cases hf : env.fs (fname.replace "file://" "") with
  | none =>
    refine Or.inl ⟨⟨env.o0, by simp [valueAtExit, hf]⟩, ?_⟩
    rintro ⟨b2, d2, hb2, _, _⟩
    rw [hf] at hb2
    simp at hb2
  | some bytes =>
    cases hs : getExifData env.seekPastEnd bytes with
    | outOfFuel => exact absurd hs (getExifData_fuel _ _)
    | failed =>
      refine Or.inl ⟨⟨env.o0, by simp [valueAtExit, hf, hs]⟩, ?_⟩
      rintro ⟨b2, d2, hb2, hd2, _⟩
      rw [hf] at hb2
      simp only [Option.some.injEq] at hb2
      subst hb2
      rw [hs] at hd2
      simp at hd2
    | payload data =>
      have hlen := getExifData_payload_length _ _ _ hs
      have hiff := fieldReader_fault_iff data env.o0 hlen
      obtain ⟨run, hrun⟩ := fieldReader_total data env.o0
      have hv : valueAtExit env fname = run.atExit := by
        simp [valueAtExit, hf, hs, hrun]
      by_cases hex : run.exit = Exit.fault
      · refine Or.inr ⟨by rw [hv]; simp [Run.atExit, hex], bytes, data, hf, hs,
          hiff.mp ⟨run, hrun, hex⟩⟩
      · refine Or.inl ⟨⟨run.o, by rw [hv]; simp [Run.atExit, hex]⟩, ?_⟩
        rintro ⟨b2, d2, hb2, hd2, hw⟩
        rw [hf] at hb2
        simp only [Option.some.injEq] at hb2
        subst hb2
        rw [hs] at hd2
        simp only [ScanResult.payload.injEq] at hd2
        subst hd2
        obtain ⟨run2, hrun2, hex2⟩ := hiff.mpr hw
        rw [hrun] at hrun2
        simp only [Option.some.injEq] at hrun2
        subst hrun2
        exact hex hex2

/-- The call returns a value, from the cache or after arriving at `exit`,
unless the name is not in the cache and the reader read outside the payload
buffer, in which case it returns nothing. -/
theorem exif_cases (env : Env) (cache : OrientationCache) (fname : String) :
    (∃ r, exifOrientationFromJpeg env cache fname = some r)
      ∨ (exifOrientationFromJpeg env cache fname = none ∧ cache fname = none
          ∧ ReaderFaults env fname) := by
  unfold exifOrientationFromJpeg
  cases hk : cache fname with
  | some v => exact Or.inl ⟨_, rfl⟩
  | none =>
    simp only
    rcases valueAtExit_cases env fname with ⟨⟨o, ho⟩, _⟩ | ⟨hn, hfault⟩
    · exact Or.inl ⟨(normalize o, cache.insert fname (normalize o)), by simp [ho]⟩
    · exact Or.inr ⟨by simp [hn], trivial, hfault⟩

/-! ## The claims -/

/-- C1: for either byte order and every `V` in 1..8 the 28-byte minimal block
with the single Orientation entry of value `V` makes the field reader (with
the range check at `exit`) return exactly `V`, whatever `o` held before (the
run arrives at `exit`: it reads nothing outside the block). -/
theorem C1_round_trip (o0 : Nat) (msbFirst : Bool) (V : Nat)
    (h1 : 1 ≤ V) (h8 : V ≤ 8) :
    (minimalBlock msbFirst V).length = 28
      ∧ orientationFromPayload (minimalBlock msbFirst V) o0 = some V :=
  orientationFromPayload_minimalBlock o0 msbFirst V h1 h8

set_option maxRecDepth 8000 in
theorem C1_round_trip_witness :
    (minimalBlock true 6).length = 28
      ∧ orientationFromPayload (minimalBlock true 6) 0 = some 6 :=
  C1_round_trip 0 true 6 (by decide) (by decide)

set_option maxRecDepth 8000 in
/-- C2 (the code departs from the claim): when the uninitialised local `o`
happens to hold 6, the call with an empty cache returns 6 (`RightTop`), not
`TopLeft`, on a file that does not start with SOI (the empty file), on a file
with EOI and no APP1, on an APP1 payload shorter than 14 bytes, on a payload
with a wrong magic, on an IFD0 offset below 8, on a truncated IFD, and on a
directory without a matching entry. -/
theorem C2_uninitialised_o :
    getExifData true [] = ScanResult.failed
      ∧ returnedFor [] 6 = some RightTop
      ∧ returnedFor [0xff, 0xd8, 0xff, 0xd9] 6 = some RightTop
      ∧ returnedFor fillSoiJpeg 6 = some RightTop
      ∧ returnedFor (app1File (List.replicate 14 0)) 6 = some RightTop
      ∧ returnedFor (app1File (EXIF_TIFF_LSB_MAGIC ++ [0, 0, 0, 0])) 6 = some RightTop
      ∧ returnedFor (app1File (EXIF_TIFF_LSB_MAGIC ++ [8, 0, 0, 0])) 6 = some RightTop
      ∧ returnedFor (app1File (EXIF_TIFF_LSB_MAGIC ++ [8, 0, 0, 0, 0, 0])) 6 = some RightTop := by
  decide

/-- C5: on a payload (of at most 65533 bytes) that passes the reader's header,
IFD-offset and field-count checks, with the field count read inside the
buffer, if entry `j` is the first of the directory
with tag 0x0112, type 3 and count 1, the reader stops there with `o` set to the
16-bit value at offset 8 of that entry, having read only tag, type and count
of the entries before it, and the result is that value when it lies in 1..8
and 1 otherwise. -/
theorem C5_first_match (d : List Byte) (o0 : Nat) (msbFirst : Bool) (j : Nat)
    (hlen : d.length ≤ 65533) (hp : PassesChecks d msbFirst)
    (hj : j < fieldCountAt d msbFirst)
    (hm : EntryMatches d msbFirst (entryPos d msbFirst j))
    (hfirst : ∀ i, i < j → ¬ EntryMatches d msbFirst (entryPos d msbFirst i)) :
    fieldReader d o0 =
        some ⟨Exit.found, rd16 d msbFirst (entryPos d msbFirst j + 8),
          headerReads d msbFirst ++ scanReads (firstEntryPos d msbFirst) j
            ++ List.range' (entryPos d msbFirst j) 8
            ++ List.range' (entryPos d msbFirst j + 8) 2⟩
      ∧ orientationFromPayload d o0 =
        some (if 1 ≤ rd16 d msbFirst (entryPos d msbFirst j + 8)
              ∧ rd16 d msbFirst (entryPos d msbFirst j + 8) ≤ 8
            then rd16 d msbFirst (entryPos d msbFirst j + 8) else 1) :=
  fieldReader_first_match d o0 msbFirst j hlen hp hj hm hfirst

set_option maxRecDepth 8000 in
theorem C5_first_match_witness :
    orientationFromPayload twoEntryBlock 9 = some 3
      ∧ EntryMatches twoEntryBlock false 28
      ∧ ¬ EntryMatches twoEntryBlock false 16
      ∧ rd16 twoEntryBlock false 16 = EXIF_TAG_ORIENTATION :=
  ⟨(C5_first_match twoEntryBlock 9 false 1 (by decide) (by decide) (by decide)
      (by decide) (by decide)).2, by decide, by decide, by decide⟩

/-- C8: on a payload (of at most 65533 bytes) with a valid magic whose IFD0
position `p = 6 + ifdOffset` leaves room for the field count (`p + 2 <= len`),
a field count `N` with `p + 2 + 12 * N > len` makes the reader go to `exit`
through one of its error branches, with `o` untouched and nothing read but the
magic, the IFD0 offset and the field count; when the length and offset checks
pass (`len >= 14`, `ifdOffset >= 8`) the branch is the one of the field-count
check (`Error 5`). -/
theorem C8_oversized_field_count (d : List Byte) (o0 : Nat)
    (msbFirst : Bool) (hlen : d.length ≤ 65533)
    (hmagic : detectByteOrder d = some msbFirst)
    (hp : 6 + ifdOffset d msbFirst + 2 ≤ d.length)
    (hN : d.length < 6 + ifdOffset d msbFirst + 2
      + 12 * rd16 d msbFirst (6 + ifdOffset d msbFirst)) :
    ∃ run, fieldReader d o0 = some run ∧ run.o = o0
      ∧ (run.exit = Exit.error1 ∨ run.exit = Exit.error3 ∨ run.exit = Exit.error5)
      ∧ (∀ i, i ∈ run.reads → i ∈ magicReads msbFirst ++ List.range' 10 4
          ++ List.range' (6 + ifdOffset d msbFirst) 2)
      ∧ (14 ≤ d.length → 8 ≤ ifdOffset d msbFirst →
          run = ⟨Exit.error5, o0, magicReads msbFirst ++ List.range' 10 4
            ++ List.range' (6 + ifdOffset d msbFirst) 2⟩) := by
  have hl : u32 d.length = d.length := u32_of_lt (by omega)
  have hN2 := rd16_lt d msbFirst (6 + ifdOffset d msbFirst)
  unfold fieldReader
  simp only [hl, hmagic]
  by_cases h14 : d.length < EXIF_IDENTIFIER_LEN + TIFF_HEADER_LEN
  · simp only [h14, if_true]
    refine ⟨_, rfl, rfl, Or.inl rfl, by simp, ?_⟩
    intro h _
    simp only [EXIF_IDENTIFIER_LEN, TIFF_HEADER_LEN] at h14
    omega
  · simp only [h14, if_false]
    rw [afterMagic_eq, hl]
    by_cases h8 : ifdOffset d msbFirst < TIFF_HEADER_LEN
    · simp only [h8, if_true]
      refine ⟨_, rfl, rfl, Or.inr (Or.inl rfl), ?_, ?_⟩
      · intro i hi
        simp only [List.mem_append] at hi ⊢
        exact Or.inl hi
      · intro _ h
        simp only [TIFF_HEADER_LEN] at h8
        omega
    · simp only [h8, if_false]
      have e1 : ifdPos d msbFirst = 6 + ifdOffset d msbFirst := u32_of_lt (by
        show 6 + ifdOffset d msbFirst < 4294967296
        omega)
      have e2 : firstEntryPos d msbFirst = 6 + ifdOffset d msbFirst + 2 := by
        unfold firstEntryPos
        rw [e1]
        exact u32_of_lt (by omega)
      have e3 : fieldCountAt d msbFirst = rd16 d msbFirst (6 + ifdOffset d msbFirst) := by
        unfold fieldCountAt
        rw [e1]
      have eh : headerReads d msbFirst = magicReads msbFirst ++ List.range' 10 4
          ++ List.range' (6 + ifdOffset d msbFirst) 2 := by
        unfold headerReads
        rw [e1]
      have e4 : u32 (TIFF_IFD_ENTRY_LEN * rd16 d msbFirst (6 + ifdOffset d msbFirst))
          = 12 * rd16 d msbFirst (6 + ifdOffset d msbFirst) := u32_of_lt (by
        show 12 * rd16 d msbFirst (6 + ifdOffset d msbFirst) < 4294967296
        omega)
      have h4 : ¬ d.length < u32 (ifdPos d msbFirst + 2) := by
        rw [e1, u32_of_lt (by omega)]
        omega
      have h5 : ¬ d.length < ifdPos d msbFirst + 2 := by
        rw [e1]
        omega
      have h6 : d.length < u32 (firstEntryPos d msbFirst
          + u32 (TIFF_IFD_ENTRY_LEN * fieldCountAt d msbFirst)) := by
        rw [e2, e3, e4, u32_of_lt (by omega)]
        exact hN
      simp only [h4, h5, h6, if_false, if_true, eh]
      exact ⟨_, rfl, rfl, Or.inr (Or.inr rfl), fun i hi => hi, fun _ _ => rfl⟩

set_option maxRecDepth 8000 in
theorem C8_oversized_field_count_witness :
    EntryMatches overclaimingBlock false 16
      ∧ ∃ run, fieldReader overclaimingBlock 9 = some run ∧ run.o = 9
        ∧ (run.exit = Exit.error1 ∨ run.exit = Exit.error3 ∨ run.exit = Exit.error5)
        ∧ (∀ i, i ∈ run.reads → i ∈ magicReads false ++ List.range' 10 4
            ++ List.range' (6 + ifdOffset overclaimingBlock false) 2)
        ∧ (14 ≤ overclaimingBlock.length → 8 ≤ ifdOffset overclaimingBlock false →
            run = ⟨Exit.error5, 9, magicReads false ++ List.range' 10 4
              ++ List.range' (6 + ifdOffset overclaimingBlock false) 2⟩) :=
  ⟨by decide, C8_oversized_field_count overclaimingBlock 9 false (by decide)
    (by decide) (by decide) (by decide)⟩

/-- C9: on a payload (of at most 65533 bytes) with which the reader enters the
entry loop with IFD0 position `p = 6 + ifdOffset` and field count `N` such that
`p + 2 + 12 * N <= len`, the run ends at a matching entry or at the end of the
directory, every index read while scanning the entries lies in
`p + 2 .. p + 2 + 12 * N - 1`, and every index read at all is below `len`. -/
theorem C9_single_check_suffices (d : List Byte) (o0 : Nat)
    (msbFirst : Bool) (hlen : d.length ≤ 65533) (h14 : 14 ≤ d.length)
    (hmagic : detectByteOrder d = some msbFirst)
    (h8 : 8 ≤ ifdOffset d msbFirst)
    (hN : 6 + ifdOffset d msbFirst + 2
      + 12 * rd16 d msbFirst (6 + ifdOffset d msbFirst) ≤ d.length) :
    ∃ run er, fieldReader d o0 = some run
      ∧ (run.exit = Exit.found ∨ run.exit = Exit.notFound)
      ∧ run.reads = magicReads msbFirst ++ List.range' 10 4
          ++ List.range' (6 + ifdOffset d msbFirst) 2 ++ er
      ∧ (∀ i, i ∈ er → 6 + ifdOffset d msbFirst + 2 ≤ i
          ∧ i < 6 + ifdOffset d msbFirst + 2
            + 12 * rd16 d msbFirst (6 + ifdOffset d msbFirst))
      ∧ (∀ i, i ∈ run.reads → i < d.length) := by
  obtain ⟨hp, e1, e2⟩ := passes_of_bounds d msbFirst hlen h14 hmagic h8 (by omega) hN
  have e3 : fieldCountAt d msbFirst = rd16 d msbFirst (6 + ifdOffset d msbFirst) := by
    unfold fieldCountAt
    rw [e1]
  have hN2 : fieldCountAt d msbFirst < 65536 := rd16_lt _ _ _
  have hr := fieldReader_of_passes d o0 msbFirst hp
  obtain ⟨run, hrun⟩ := entryLoop_total d msbFirst (fieldCountAt d msbFirst) o0 hN2
    (fieldCountAt d msbFirst + 1) 0 (firstEntryPos d msbFirst)
    (headerReads d msbFirst) (by omega) (by omega)
  obtain ⟨hex, er, her, hb⟩ := entryLoop_reads d msbFirst (fieldCountAt d msbFirst) o0 hN2
    _ 0 _ _ run (by omega) (by rw [e2, e3]; omega) (by rw [e2, e3]; omega) hrun
  rw [hrun] at hr
  have hh : headerReads d msbFirst = magicReads msbFirst ++ List.range' 10 4
      ++ List.range' (6 + ifdOffset d msbFirst) 2 := by
    unfold headerReads
    rw [e1]
  rw [hh] at her
  rw [e2, e3] at hb
  refine ⟨run, er, hr, ?_, her, ?_, ?_⟩
  · rcases hex with h | h
    · exact Or.inl h.1
    · exact Or.inr h.1
  · intro i hi
    have := hb i hi
    omega
  · intro i hi
    rw [her] at hi
    simp only [List.mem_append, List.mem_range'_1, magicReads] at hi
    rcases hi with ((hi | hi) | hi) | hi
    · cases msbFirst <;> simp [List.mem_range'_1] at hi <;> omega
    · omega
    · omega
    · have := hb i hi
      omega

set_option maxRecDepth 8000 in
theorem C9_single_check_suffices_witness :
    ∃ run er, fieldReader twoEntryBlock 9 = some run
      ∧ (run.exit = Exit.found ∨ run.exit = Exit.notFound)
      ∧ run.reads = magicReads false ++ List.range' 10 4
          ++ List.range' (6 + ifdOffset twoEntryBlock false) 2 ++ er
      ∧ (∀ i, i ∈ er → 6 + ifdOffset twoEntryBlock false + 2 ≤ i
          ∧ i < 6 + ifdOffset twoEntryBlock false + 2
            + 12 * rd16 twoEntryBlock false
                (6 + ifdOffset twoEntryBlock false))
      ∧ (∀ i, i ∈ run.reads → i < twoEntryBlock.length) :=
  C9_single_check_suffices twoEntryBlock 9 false (by decide) (by decide)
    (by decide) (by decide) (by decide)

set_option maxRecDepth 8000 in
/-- C4 (the code departs from the claim): on the 14-byte payload `wrapBlock`,
whose IFD0 offset is 0xFFFFFFF8, `pos + 2` wraps to 0 in 32-bit arithmetic, the
check `len < pos + 2` passes, and the reader reads the field count at indices
4294967294 and 4294967295, far past the end of the buffer, where its run ends;
this holds whatever `o` held. -/
theorem C4_read_past_end (o0 : Nat) :
    wrapBlock.length = 14
      ∧ getExifData true ([0xff, 0xd8, 0xff, 0xe1, 0x00, 0x10] ++ wrapBlock)
          = ScanResult.payload wrapBlock
      ∧ ∃ run, fieldReader wrapBlock o0 = some run
          ∧ 4294967294 ∈ run.reads ∧ 4294967295 ∈ run.reads
          ∧ ¬ (4294967294 < wrapBlock.length)
          ∧ run.exit = Exit.fault := by
  refine ⟨by decide, by decide, _, fieldReader_of_wraps wrapBlock o0 false (by decide)
    (by decide) (by decide) (by decide) (by decide), ?_, ?_, by decide, rfl⟩
  · show 4294967294 ∈ headerReads wrapBlock false
    decide
  · show 4294967295 ∈ headerReads wrapBlock false
    decide

set_option maxRecDepth 8000 in
/-- C7 (the code departs from the claim): on the 14-byte payload
`wrapBlockInside`, with valid magic and IFD0 offset 0xFFFFFFFE (at least 8),
`6 + ifdOffset + 2` exceeds the length, yet the position the reader uses is
`(6 + 0xFFFFFFFE) mod 2^32 = 4`, the check `len < pos + 2` passes, and the
reader reads a field count at indices 4 and 5 and leaves through the end of the
entry loop instead of failing at the bounds check. -/
theorem C7_wrapped_ifd_position (o0 : Nat) :
    14 ≤ wrapBlockInside.length
      ∧ detectByteOrder wrapBlockInside = some false
      ∧ 8 ≤ ifdOffset wrapBlockInside false
      ∧ wrapBlockInside.length < 6 + ifdOffset wrapBlockInside false + 2
      ∧ ifdPos wrapBlockInside false = 4
      ∧ fieldReader wrapBlockInside o0
          = some ⟨Exit.notFound, o0, magicReads false ++ List.range' 10 4 ++ [4, 5]⟩ := by
  refine ⟨by decide, by decide, by decide, by decide, by decide, ?_⟩
  rw [fieldReader_of_passes wrapBlockInside o0 false (by decide)]
  have eN : fieldCountAt wrapBlockInside false = 0 := by decide
  have eH : headerReads wrapBlockInside false
      = magicReads false ++ List.range' 10 4 ++ [4, 5] := by decide
  rw [eN, eH, entryLoop_unfold]
  simp

set_option maxRecDepth 8000 in
/-- C6: on every stream made of SOI, any sequence of standalone markers (TEM,
RST0 .. RST7) and complete non-APP1 segments, an APP1 marker with length
`payload.length + 2` followed by the payload, and arbitrary trailing bytes
(every marker possibly preceded by fill bytes), `getExifData` returns true with
`data` equal to the payload, whatever the device does on a seek past the end;
with the little-endian minimal block of value 6 as payload, the call of
`exifOrientationFromJpeg` on such a file from a cache without the name
returns 6. -/
theorem C6_first_app1_payload (sp : Bool) (fill0 fillA : Nat) (items : List Item)
    (payload trailing : List Byte) (hitems : ∀ it, it ∈ items → it.WellFormed)
    (hpay : payload.length ≤ 65533) :
    getExifData sp (jpegStream fill0 items fillA payload trailing)
        = ScanResult.payload payload
      ∧ (payload = minimalBlock false 6 →
          ∀ (env : Env) (cache : OrientationCache) (fname : String),
            env.seekPastEnd = sp → cache fname = none →
            env.fs (fname.replace "file://" "")
              = some (jpegStream fill0 items fillA payload trailing) →
            (exifOrientationFromJpeg env cache fname).map Prod.fst = some RightTop) := by
  have h := getExifData_jpegStream sp fill0 fillA items payload trailing hitems hpay
  refine ⟨h, ?_⟩
  intro hp env cache fname hsp hc hf
  rw [← hsp] at h
  rw [exif_of_payload env cache fname _ payload hc hf h, hp]
  exact (orientationFromPayload_minimalBlock env.o0 false 6 (by decide) (by decide)).2

set_option maxRecDepth 8000 in
theorem C6_first_app1_payload_witness :
    getExifData true exampleJpeg = ScanResult.payload (minimalBlock false 6)
      ∧ (exifOrientationFromJpeg (envOf exampleJpeg 9) emptyCache "a.jpg").map Prod.fst
          = some RightTop :=
  have h := C6_first_app1_payload true 0 0 [Item.standalone 0 0xd0, Item.segment 0 0xe0 [9, 9]]
    (minimalBlock false 6) [1, 2, 3] (by decide) (by decide)
  ⟨h.1, h.2 rfl (envOf exampleJpeg 9) emptyCache "a.jpg" rfl rfl rfl⟩

set_option maxRecDepth 8000 in
/-- C10, as the claim states it, fails: the first two bytes of `fillSoiJpeg`
are 0xff 0xff, not 0xff 0xd8, and `getExifData` returns true on it (with an
empty payload), whatever the device does on a seek past the end. -/
theorem C10_counterexample :
    fillSoiJpeg.take 2 ≠ [0xff, 0xd8]
      ∧ getExifData true fillSoiJpeg = ScanResult.payload []
      ∧ getExifData false fillSoiJpeg = ScanResult.payload [] := by
  decide

/-- C10, amended: for every byte stream that does not begin with one or more
0xff bytes followed by 0xd8 (in particular the empty stream, every one-byte
stream, and every stream whose first byte is not 0xff), `getExifData` returns
false. -/
theorem C10_soi_precondition (sp : Bool) (bytes : List Byte)
    (h : ¬ ∃ k rest, bytes = markerBytes k 0xd8 ++ rest) :
    getExifData sp bytes = ScanResult.failed := by
  unfold getExifData
  simp only
  split
  · rfl
  · rename_i hm
    exact absurd (getMarker_soi_inv bytes (by simpa using hm)) h

theorem C10_soi_precondition_witness :
    (¬ ∃ k rest, ([0xff] : List Byte) = markerBytes k 0xd8 ++ rest)
      ∧ getExifData true [0xff] = ScanResult.failed :=
  have h : ¬ ∃ k rest, ([0xff] : List Byte) = markerBytes k 0xd8 ++ rest := by
    rintro ⟨k, rest, h⟩
    have := congrArg List.length h
    simp [markerBytes] at this
    omega
  ⟨h, C10_soi_precondition true [0xff] h⟩

/-- C11: on every stream made of SOI, any sequence of standalone markers and
complete non-APP1 segments, then an EOI or a second SOI marker (each marker
possibly preceded by fill bytes), then arbitrary bytes, `getExifData` returns
false, whatever follows that marker and whatever the device does on a seek
past the end. -/
theorem C11_eoi_or_soi_ends_scan (sp : Bool) (fill0 fillE : Nat) (items : List Item)
    (c : Byte) (tail : List Byte) (hitems : ∀ it, it ∈ items → it.WellFormed)
    (hc : c.val = JPEG_MARKER_SOI ∨ c.val = JPEG_MARKER_EOI) :
    getExifData sp (scanStream fill0 items (markerBytes fillE c ++ tail))
      = ScanResult.failed := by
  obtain ⟨f, F, _, hrest, hrun⟩ :=
    getExifData_scanStream sp fill0 items (markerBytes fillE c ++ tail) hitems
  rw [hrun]
  exact markerLoop_soi_eoi sp (F + 1) f fillE c tail hrest hc

set_option maxRecDepth 8000 in
theorem C11_eoi_or_soi_ends_scan_witness :
    getExifData true (scanStream 0 [Item.standalone 0 0xd0, Item.segment 0 0xe0 [9, 9]]
        (markerBytes 0 0xd9 ++ app1Segment (minimalBlock false 6))) = ScanResult.failed
      ∧ getExifData true (scanStream 0 [Item.standalone 0 0xd0, Item.segment 0 0xe0 [9, 9]]
          (app1Segment (minimalBlock false 6))) = ScanResult.payload (minimalBlock false 6) :=
  ⟨C11_eoi_or_soi_ends_scan true 0 0 [Item.standalone 0 0xd0, Item.segment 0 0xe0 [9, 9]]
    0xd9 (app1Segment (minimalBlock false 6)) (by decide) (by decide), by decide⟩

/-- C12: when the scanner, after SOI and any sequence of standalone markers and
complete non-APP1 segments, reaches a length-prefixed marker (APP1 or another
non-standalone marker), `getExifData` returns false if the big-endian length
field is 0 or 1, and if fewer than two bytes are left for it; on APP1 a length
of exactly 2 makes it return true with an empty payload. -/
theorem C12_malformed_length (sp : Bool) (fill0 fillM : Nat) (items : List Item) (c : Byte)
    (hitems : ∀ it, it ∈ items → it.WellFormed) (hc : IsLengthPrefixed c) :
    (∀ (L : Nat) (tail : List Byte), L < 2 →
        getExifData sp (scanStream fill0 items (markerBytes fillM c ++ (be16 L ++ tail)))
          = ScanResult.failed)
      ∧ (∀ (short : List Byte), short.length < 2 →
        getExifData sp (scanStream fill0 items (markerBytes fillM c ++ short))
          = ScanResult.failed)
      ∧ (∀ (tail : List Byte),
        getExifData sp (scanStream fill0 items (markerBytes fillM 0xe1 ++ (be16 2 ++ tail)))
          = ScanResult.payload []) := by
  refine ⟨?_, ?_, ?_⟩
  · intro L tail hL
    obtain ⟨f, F, _, hrest, hrun⟩ :=
      getExifData_scanStream sp fill0 items (markerBytes fillM c ++ (be16 L ++ tail)) hitems
    rw [hrun]
    apply markerLoop_bad_length sp (F + 1) f fillM c _ hrest hc
    rw [getMarkerLength_be16 _ L tail (rest_advance f _ _ hrest) (by omega)]
    exact hL
  · intro short hs
    obtain ⟨f, F, _, hrest, hrun⟩ :=
      getExifData_scanStream sp fill0 items (markerBytes fillM c ++ short) hitems
    rw [hrun]
    apply markerLoop_bad_length sp (F + 1) f fillM c _ hrest hc
    rw [getMarkerLength_short _ (by rw [rest_advance f _ _ hrest]; exact hs)]
    decide
  · intro tail
    obtain ⟨f, F, _, hrest, hrun⟩ :=
      getExifData_scanStream sp fill0 items (markerBytes fillM 0xe1 ++ (be16 2 ++ tail)) hitems
    rw [hrun]
    exact markerLoop_app1 sp (F + 1) f fillM [] tail hrest (by decide)

set_option maxRecDepth 8000 in
theorem C12_malformed_length_witness :
    getExifData true (scanStream 0 [Item.standalone 0 0xd0] (markerBytes 0 0xe0
        ++ (be16 1 ++ [9, 9]))) = ScanResult.failed
      ∧ getExifData true (scanStream 0 [Item.standalone 0 0xd0] (markerBytes 0 0xe0 ++ [0]))
          = ScanResult.failed
      ∧ getExifData true (scanStream 0 [Item.standalone 0 0xd0] (markerBytes 0 0xe1
          ++ (be16 2 ++ [9, 9]))) = ScanResult.payload [] :=
  have h := C12_malformed_length true 0 0 [Item.standalone 0 0xd0] 0xe0 (by decide) (by decide)
  ⟨h.1 1 [9, 9] (by decide), h.2.1 [0] (by decide), h.2.2 [9, 9]⟩

/-- C13: when the scanner, after SOI and any sequence of standalone markers and
complete non-APP1 segments, reaches a length-prefixed segment (APP1 or other)
whose declared length `L >= 2` asks for more than the bytes left after the
length field, `getExifData` returns false, so no partial payload is handed
back, whatever the device does on a seek past the end. -/
theorem C13_truncated_segment (sp : Bool) (fill0 fillM : Nat) (items : List Item) (c : Byte)
    (L : Nat) (short : List Byte) (hitems : ∀ it, it ∈ items → it.WellFormed)
    (hc : IsLengthPrefixed c) (hL2 : 2 ≤ L) (hL16 : L < 65536) (hs : short.length < L - 2) :
    getExifData sp (scanStream fill0 items (markerBytes fillM c ++ (be16 L ++ short)))
      = ScanResult.failed := by
  obtain ⟨f, F, _, hrest, hrun⟩ :=
    getExifData_scanStream sp fill0 items (markerBytes fillM c ++ (be16 L ++ short)) hitems
  rw [hrun]
  exact markerLoop_truncated sp F f fillM c L short hrest hc hL2 hL16 hs

set_option maxRecDepth 8000 in
theorem C13_truncated_segment_witness :
    getExifData true (scanStream 0 [Item.standalone 0 0xd0] (markerBytes 0 0xe0
        ++ (be16 10 ++ [1, 2, 3]))) = ScanResult.failed
      ∧ getExifData false (scanStream 0 [Item.standalone 0 0xd0] (markerBytes 0 0xe1
          ++ (be16 30 ++ EXIF_TIFF_LSB_MAGIC))) = ScanResult.failed :=
  ⟨C13_truncated_segment true 0 0 [Item.standalone 0 0xd0] 0xe0 10 [1, 2, 3] (by decide)
      (by decide) (by decide) (by decide) (by decide),
    C13_truncated_segment false 0 0 [Item.standalone 0 0xd0] 0xe1 30 EXIF_TIFF_LSB_MAGIC
      (by decide) (by decide) (by decide) (by decide) (by decide)⟩

/-- C17: at a stream position that holds one or more 0xff bytes followed by a
byte `c` that is neither 0 nor 0xff, `getMarker` returns `c` and leaves the
position right after `c`, however many 0xff bytes there are; at every other
position (no byte left, a first byte other than 0xff, a run of 0xff followed by
0 or cut off by the end of the stream) it returns 0; and a 0 from `getMarker`
makes `getExifData` return false, both for the first marker and in the marker
loop. -/
theorem C17_marker_reading (f : QFile) :
    (∀ (k : Nat) (c : Byte) (tail : List Byte),
        f.rest = List.replicate (k + 1) JPEG_MARKER_PREFIX ++ c :: tail →
        c ≠ JPEG_MARKER_PREFIX → c.val ≠ 0 →
        getMarker f = (c.val, ⟨f.bytes, f.pos + (k + 1) + 1⟩))
      ∧ ((¬ ∃ (k : Nat) (c : Byte) (tail : List Byte),
          f.rest = List.replicate (k + 1) JPEG_MARKER_PREFIX ++ c :: tail
            ∧ c ≠ JPEG_MARKER_PREFIX ∧ c.val ≠ 0) → (getMarker f).1 = 0)
      ∧ ((getMarker f).1 = 0 →
          (∀ (sp : Bool) (fuel : Nat), markerLoop sp (fuel + 1) f = ScanResult.failed)
            ∧ (f.pos = 0 → ∀ (sp : Bool), getExifData sp f.bytes = ScanResult.failed)) := by
  refine ⟨?_, ?_, ?_⟩
  · intro k c tail h hc h0
    have h2 : f.rest = markerBytes k c ++ tail := by
      rw [h]
      simp [markerBytes]
    rw [getMarker_marker f k c tail h2 hc h0, markerBytes_length]
    congr 2
  · intro h
    by_contra hne
    exact h (getMarker_inv f hne)
  · intro h
    refine ⟨fun sp fuel => markerLoop_marker_zero sp fuel f h, ?_⟩
    intro hp sp
    apply getExifData_marker_zero
    have : (⟨f.bytes, 0⟩ : QFile) = f := by
      cases f
      simp only at hp
      rw [hp]
    rw [this]
    exact h

set_option maxRecDepth 8000 in
theorem C17_marker_reading_witness :
    getMarker ⟨[0xd8, 0xff, 0xff, 0xff, 0xe1, 7], 1⟩
        = (JPEG_MARKER_APP1, ⟨[0xd8, 0xff, 0xff, 0xff, 0xe1, 7], 5⟩)
      ∧ getMarker ⟨[0xd8, 0xff, 0xe1, 7], 1⟩ = (JPEG_MARKER_APP1, ⟨[0xd8, 0xff, 0xe1, 7], 3⟩)
      ∧ (getMarker ⟨[0xd8, 0xe1], 1⟩).1 = 0
      ∧ (getMarker ⟨[0xd8, 0xff, 0xff, 0x00, 0xe1], 1⟩).1 = 0
      ∧ (getMarker ⟨[0xd8, 0xff, 0xff], 1⟩).1 = 0
      ∧ (getMarker ⟨[0xd8], 1⟩).1 = 0 :=
  ⟨(C17_marker_reading ⟨[0xd8, 0xff, 0xff, 0xff, 0xe1, 7], 1⟩).1 2 0xe1 [7] (by decide)
      (by decide) (by decide),
    (C17_marker_reading ⟨[0xd8, 0xff, 0xe1, 7], 1⟩).1 0 0xe1 [7] (by decide)
      (by decide) (by decide),
    by decide, by decide, by decide, by decide⟩

/-- C18: for every integer value of the orientation, the `switch` inside
`GetImage` and `rotate` apply the same geometric operations in the same order
(they differ only in the interpolation mode of `transformed`); both apply no
operation for `TopLeft` and for every value outside 1..8. -/
theorem C18_mappers_agree (orientation : Int) :
    geometryOf (getImageSwitch orientation) = geometryOf (rotate orientation)
      ∧ (orientation ≤ 1 ∨ 8 < orientation →
          getImageSwitch orientation = [] ∧ rotate orientation = []) := by
  unfold getImageSwitch rotate
  simp only [TopRight, BottomRight, BottomLeft, LeftTop, RightTop, RightBottom, LeftBottom,
    Nat.cast_ofNat]
  refine ⟨?_, ?_⟩
  · split_ifs <;> rfl
  · intro h
    constructor <;> split_ifs <;> first | rfl | omega

set_option maxRecDepth 8000 in
theorem C18_mappers_agree_witness :
    geometryOf (getImageSwitch 5) = [GeoOp.rotation 90, GeoOp.mirror true false]
      ∧ geometryOf (rotate 5) = [GeoOp.rotation 90, GeoOp.mirror true false]
      ∧ getImageSwitch 5 ≠ rotate 5
      ∧ getImageSwitch 1 = [] ∧ rotate 1 = []
      ∧ getImageSwitch 9 = [] ∧ rotate 9 = []
      ∧ getImageSwitch (-3) = [] ∧ rotate (-3) = [] :=
  ⟨(C18_mappers_agree 5).1.trans (by decide), by decide, by decide,
    ((C18_mappers_agree 1).2 (by decide)).1, ((C18_mappers_agree 1).2 (by decide)).2,
    ((C18_mappers_agree 9).2 (by decide)).1, ((C18_mappers_agree 9).2 (by decide)).2,
    ((C18_mappers_agree (-3)).2 (by decide)).1, ((C18_mappers_agree (-3)).2 (by decide)).2⟩

/-- C3: from any cache that holds only values in 1..8 (the empty cache in
particular), for every file content, every file name and every value the
local `o` may hold on arrival at `exit`, every value the call returns lies in
1..8, on a cache miss that value is what it stores under the name, and the
cache afterwards again holds only values in 1..8.  The call returns such a
value on every input but one kind: when the name is not in the cache and the
APP1 payload makes the reader read outside its buffer, the call ends at that
read, returning and storing nothing. -/
theorem C3_output_range (env : Env) (cache : OrientationCache) (fname : String)
    (hc : CacheInRange cache) :
    (∃ r cache2, exifOrientationFromJpeg env cache fname = some (r, cache2)
        ∧ 1 ≤ r ∧ r ≤ 8 ∧ cache2 fname = some r ∧ CacheInRange cache2
        ∧ ¬ (cache fname = none ∧ ReaderFaults env fname))
      ∨ (exifOrientationFromJpeg env cache fname = none ∧ cache fname = none
          ∧ ReaderFaults env fname) := by
  unfold exifOrientationFromJpeg
  cases hk : cache fname with
  | some v =>
    exact Or.inl ⟨v, cache, rfl, (hc fname v hk).1, (hc fname v hk).2, hk, hc,
      fun h => nomatch h.1⟩
  | none =>
    simp only
    rcases valueAtExit_cases env fname with ⟨⟨o, ho⟩, hnf⟩ | ⟨hn, hfault⟩
    · have hr := normalize_range o
      refine Or.inl ⟨normalize o, cache.insert fname (normalize o), by simp [ho], hr.1, hr.2,
        ?_, ?_, fun h => hnf h.2⟩
      · simp [OrientationCache.insert]
      · intro k v hkv
        unfold OrientationCache.insert at hkv
        split at hkv
        · cases hkv; exact hr
        · exact hc k v hkv
    · exact Or.inr ⟨by simp [hn], trivial, hfault⟩

theorem C3_output_range_witness :
    CacheInRange emptyCache ∧
    ((∃ r cache2, exifOrientationFromJpeg (envOf [0xff, 0xd8, 0xff, 0xd9] 9) emptyCache "a.jpg"
          = some (r, cache2)
        ∧ 1 ≤ r ∧ r ≤ 8 ∧ cache2 "a.jpg" = some r ∧ CacheInRange cache2
        ∧ ¬ (emptyCache "a.jpg" = none
              ∧ ReaderFaults (envOf [0xff, 0xd8, 0xff, 0xd9] 9) "a.jpg"))
      ∨ (exifOrientationFromJpeg (envOf [0xff, 0xd8, 0xff, 0xd9] 9) emptyCache "a.jpg" = none
          ∧ emptyCache "a.jpg" = none
          ∧ ReaderFaults (envOf [0xff, 0xd8, 0xff, 0xd9] 9) "a.jpg")) :=
  have h : CacheInRange emptyCache := by intro k v hkv; simp [emptyCache] at hkv
  ⟨h, C3_output_range (envOf [0xff, 0xd8, 0xff, 0xd9] 9) emptyCache "a.jpg" h⟩

/-- C14: every loop of the extraction ends, on every byte stream.  A turn of
the fill-byte loop of `getMarker` that goes round again has taken one byte, and
the loop ends within the bytes that are left; a turn of the marker loop of
`getExifData` that goes round again has consumed at least two bytes lying
inside the file, so the loop returns within `size + 1` turns; the field count
is at most 65535, the counter of the entry loop is incremented without
wrapping while it is below the field count, and the loop ends after at most
`fieldCount` turns (at most eight indices read per turn, two more at a match);
so the run of the field reader always ends, at `exit` or at a read outside the
buffer, and the call of `exifOrientationFromJpeg` either returns a value or
ends at such a read, with the name not in the cache. -/
theorem C14_termination :
    (∀ (rest : List Byte) (pos : Nat),
        fillLoop (JPEG_MARKER_PREFIX :: rest) pos = fillLoop rest (pos + 1)
          ∧ pos ≤ (fillLoop rest pos).2 ∧ (fillLoop rest pos).2 ≤ pos + rest.length)
      ∧ (∀ (sp : Bool) (fuel : Nat) (f : QFile),
          markerLoop sp (fuel + 1) f =
            match markerStep sp f with
            | Sum.inl r => r
            | Sum.inr f2 => markerLoop sp fuel f2)
      ∧ (∀ (sp : Bool) (f f2 : QFile), markerStep sp f = Sum.inr f2 →
          f.pos + 2 ≤ f2.pos ∧ f2.bytes = f.bytes ∧ f.pos + 2 ≤ f.bytes.length)
      ∧ (∀ (sp : Bool) (bytes : List Byte), getExifData sp bytes ≠ ScanResult.outOfFuel)
      ∧ (∀ (d : List Byte) (msb : Bool), fieldCountAt d msb ≤ 65535)
      ∧ (∀ (N f : Nat), N ≤ 65535 → f < N → u16 (f + 1) = f + 1)
      ∧ (∀ (d : List Byte) (msb : Bool) (N o0 pos : Nat) (reads : List Nat),
          N ≤ 65535 → ∃ run, entryLoop d msb N o0 (N + 1) 0 pos reads = some run
            ∧ run.reads.length ≤ reads.length + 8 * N + 2)
      ∧ (∀ (d : List Byte) (o0 : Nat), ∃ run, fieldReader d o0 = some run)
      ∧ (∀ (env : Env) (cache : OrientationCache) (fname : String),
          (∃ r, exifOrientationFromJpeg env cache fname = some r)
            ∨ (exifOrientationFromJpeg env cache fname = none ∧ cache fname = none
                ∧ ReaderFaults env fname)) := by
  refine ⟨?_, markerLoop_step, markerStep_progress, getExifData_fuel, ?_, ?_, ?_,
    fieldReader_total, exif_cases⟩
  · intro rest pos
    refine ⟨?_, fillLoop_bounds rest pos⟩
    rw [fillLoop]
    simp
  · intro d msb
    have := rd16_lt d msb (ifdPos d msb)
    unfold fieldCountAt
    omega
  · intro N f hN hf
    exact u16_of_lt (by omega)
  · intro d msb N o0 pos reads hN
    obtain ⟨run, hrun⟩ := entryLoop_total d msb N o0 (by omega) (N + 1) 0 pos reads
      (by omega) (by omega)
    have := entryLoop_reads_length d msb N o0 (by omega) (N + 1) 0 pos reads run
      (by omega) hrun
    exact ⟨run, hrun, by omega⟩

/-- C15: two successive calls of `exifOrientationFromJpeg` with the same name
return the same value, from any initial state of the cache: a first call that
returns `r` leaves a cache that holds `r` under the name, and the second call,
whatever it would find in the file (the unchanged content in particular) and
whatever its own uninitialised `o` holds, returns `r` from the cache and
leaves the cache as it is; so two calls in a row have the result and the
effect of one.  The first call returns on every input but one kind: when the
name is not in the cache and the APP1 payload makes the reader read outside
its buffer, the call ends at that read, storing nothing, and no second call
follows it. -/
theorem C15_idempotence (env env2 : Env) (cache : OrientationCache) (fname : String) :
    ((∃ r cache1, exifOrientationFromJpeg env cache fname = some (r, cache1)
        ∧ cache1 fname = some r
        ∧ exifOrientationFromJpeg env2 cache1 fname = some (r, cache1)
        ∧ ¬ (cache fname = none ∧ ReaderFaults env fname))
      ∨ (exifOrientationFromJpeg env cache fname = none ∧ cache fname = none
          ∧ ReaderFaults env fname))
      ∧ ((exifOrientationFromJpeg env cache fname).bind
            (fun p => exifOrientationFromJpeg env2 p.2 fname))
          = exifOrientationFromJpeg env cache fname := by
  cases hk : cache fname with
  | some v =>
    refine ⟨Or.inl ⟨v, cache, ?_, hk, ?_, fun h => nomatch h.1⟩, ?_⟩ <;>
      simp [exifOrientationFromJpeg, hk]
  | none =>
    rcases valueAtExit_cases env fname with ⟨⟨o, ho⟩, hnf⟩ | ⟨hn, hfault⟩
    · have hi : (cache.insert fname (normalize o)) fname = some (normalize o) := by
        simp [OrientationCache.insert]
      refine ⟨Or.inl ⟨normalize o, cache.insert fname (normalize o), ?_, hi, ?_,
        fun h => hnf h.2⟩, ?_⟩
      · simp [exifOrientationFromJpeg, hk, ho]
      · simp [exifOrientationFromJpeg, hi]
      · simp [exifOrientationFromJpeg, hk, ho, hi]
    · refine ⟨Or.inr ⟨?_, rfl, hfault⟩, ?_⟩ <;> simp [exifOrientationFromJpeg, hk, hn]

set_option maxRecDepth 8000 in
/-- C16 (the code departs from the claim): `rotate` calls `rotate(90.0)` for
both 5 and 6 and `rotate(-90.0)` for both 7 and 8, each followed by the
horizontal mirror for 5 and 7.  So the angles passed for 5 and 8 are opposite
and those passed for 5 and 6 are equal, where the claim has 5 with 8 against 6
with 7; whichever sign of the angle is read as clockwise, the calls differ
from the table of the claim: at 6 and 8 when clockwise is `rotate(90.0)`, at 5
and 7 when clockwise is `rotate(-90.0)`. -/
theorem C16_rotate_pairing :
    geometryOf (rotate LeftTop) = [GeoOp.rotation 90, GeoOp.mirror true false]
      ∧ geometryOf (rotate RightTop) = [GeoOp.rotation 90]
      ∧ geometryOf (rotate RightBottom) = [GeoOp.rotation (-90), GeoOp.mirror true false]
      ∧ geometryOf (rotate LeftBottom) = [GeoOp.rotation (-90)]
      ∧ rotationAngle (geometryOf (rotate LeftTop))
          ≠ rotationAngle (geometryOf (rotate LeftBottom))
      ∧ rotationAngle (geometryOf (rotate LeftTop))
          = rotationAngle (geometryOf (rotate RightTop))
      ∧ geometryOf (rotate RightTop) ≠ specTransform 90 RightTop
      ∧ geometryOf (rotate LeftBottom) ≠ specTransform 90 LeftBottom
      ∧ geometryOf (rotate LeftTop) ≠ specTransform (-90) LeftTop
      ∧ geometryOf (rotate RightBottom) ≠ specTransform (-90) RightBottom := by
  decide

end JpegExif
